import Mathlib

/-!
Verification development for the connection-pool subsystem of DBcat
(`src/DBCat/dboperator/connection_pool.py`).

The Python module is shallowly embedded as pure Lean functions over an
explicit `PoolState`.  Dictionaries become functions into `Option`,
`queue.Queue` becomes a FIFO `List Nat` of connection identifiers
(front = next element returned by `get`), and the mutable
`PooledConnection` objects become records stored in a map
`Nat → Option PooledConnection` keyed by allocation order, so that the
aliasing between the idle queue and the `active_connections` list is
represented faithfully (both hold identifiers into the same map).

External non-determinism (whether the MySQL driver reports a session as
connected, whether `reconnect` succeeds, whether `mysql.connector.connect`
succeeds) is supplied per operation through an `Env` record.  Wall-clock
time (`time.time()`) is supplied as a `Nat` argument `now`.

Operations are modelled as atomic: a blocked `queue.get(timeout=...)`
inside `get_connection` cannot observe a concurrent `put`, hence in this
single-threaded (sequentially consistent, atomic-operation) semantics the
saturated branch times out.
-/

/-- The host information object handed to `register_host` (attributes
read by the source: `host`, `port`, `user_name`, `password`). -/
structure HostInfo where
  host : String
  port : Nat
  user_name : String
  password : String
deriving DecidableEq

/-- The per-host entry of `ConnectionPool.connection_params`, as built by
`register_host`. -/
structure HostParams where
  host : String
  port : Nat
  user : String
  password : String
  ssl_disabled : Bool
deriving DecidableEq

/-- The state of one `PooledConnection` wrapper together with the state of
its underlying MySQL session.  `closed` records that `connection.close()`
has been called on the underlying session (and not re-opened by a
successful `reconnect`); the `pool` back-reference of the Python object is
implicit (there is a single pool), and the raw `connection` attribute is
always truthy after construction, so it is not modelled separately. -/
structure PooledConnection where
  host_id : String
  last_used : Nat
  in_use : Bool
  closed : Bool
deriving DecidableEq

/-- Per-operation external environment: `alive cid` is what the driver's
`is_connected()` reports for the (un-closed) session `cid` during this
operation, `reconnectOk` the set of sessions for which
`connection.reconnect(attempts=1)` would succeed, `connectOk` whether
`mysql.connector.connect` returns without raising during this operation,
`newIsConnected` what `connection.is_connected()` reports on the freshly
created session, and `connectErrMsg` the text of the raised
`mysql.connector.Error` when `connectOk` is false. -/
structure Env where
  alive : List Nat
  reconnectOk : List Nat
  connectOk : Bool
  newIsConnected : Bool
  connectErrMsg : String
deriving DecidableEq

/-- The distinct error results of `get_connection` /
`_create_new_connection`, one constructor per `return None, msg` site of
the source. -/
inductive PoolErr where
  | unknownHost (host_id : String)
  | timeout
  | notConnected (host : String)
  | connectError (msg : String)
deriving DecidableEq

/-- The error message string of each error result, exactly as formatted by
the source. -/
def PoolErr.message : PoolErr → String
  | .unknownHost h => "未注册的主机ID: " ++ h
  | .timeout => "获取数据库连接超时，连接池已满"
  | .notConnected h => "无法连接到数据库: " ++ h
  | .connectError m => "连接数据库时出错: " ++ m

/-- Pointwise update of a finite map modelled as a function into `Option`. -/
def fset {κ α : Type} [DecidableEq κ] (f : κ → Option α) (k : κ) (v : α) :
    κ → Option α :=
  fun k' => if k' = k then some v else f k'

/-- The state of the `ConnectionPool` object.

* `connection_params`, `pools`, `active_connections` are the three
  dictionaries of the source, keyed by host id; queues and active lists
  hold connection identifiers into `conns`.
* `host_ids` tracks the key list of `active_connections` (needed because
  the cleanup thread iterates `list(self.active_connections.keys())`).
* `next_id` allocates connection identifiers; `created` is a ghost counter
  of successful `mysql.connector.connect` calls (underlying sessions
  established); `held` is a ghost list of the connections currently
  checked out to callers (in acquisition order). -/
structure PoolState where
  connection_params : String → Option HostParams
  pools : String → Option (List Nat)
  active_connections : String → Option (List Nat)
  host_ids : List String
  conns : Nat → Option PooledConnection
  max_connections : Nat
  connection_timeout : Nat
  max_idle_time : Nat
  next_id : Nat
  created : Nat
  held : List Nat

/-- The state of a freshly constructed `ConnectionPool(max_connections,
connection_timeout, max_idle_time)`. -/
def initState (max_connections connection_timeout max_idle_time : Nat) : PoolState :=
  { connection_params := fun _ => none
    pools := fun _ => none
    active_connections := fun _ => none
    host_ids := []
    conns := fun _ => none
    max_connections := max_connections
    connection_timeout := connection_timeout
    max_idle_time := max_idle_time
    next_id := 0
    created := 0
    held := [] }

/-- `PooledConnection.is_connected`: false once the underlying session was
closed, otherwise whatever the driver reports during this operation. -/
def PoolState.is_connected (s : PoolState) (env : Env) (cid : Nat) : Bool :=
  match s.conns cid with
  | some c => !c.closed && env.alive.contains cid
  | none => false

/-- Field update of an allocated connection record. -/
def updConn (s : PoolState) (cid : Nat) (f : PooledConnection → PooledConnection) :
    PoolState :=
  match s.conns cid with
  | some c => { s with conns := fset s.conns cid (f c) }
  | none => s

/-- `ConnectionPool._close_connection`: call `connection.close()` when the
connection is still live (recorded in the `closed` flag), then remove the
wrapper from `active_connections[host_id]` when present (`list.remove`
deletes the first occurrence). -/
def close_connection (s : PoolState) (env : Env) (cid : Nat) : PoolState :=
  match s.conns cid with
  | none => s
  | some c =>
    let s1 := if s.is_connected env cid
      then { s with conns := fset s.conns cid { c with closed := true } }
      else s
    match s1.active_connections c.host_id with
    | none => s1
    | some l =>
      if l.contains cid then
        { s1 with active_connections := fset s1.active_connections c.host_id (l.erase cid) }
      else s1

/-- `len(self.active_connections[host_id])`; `0` when the entry is absent
(in the source that access raises `KeyError`, which is unreachable through
the module's API because `register_host` creates the entry). -/
def activeCount (s : PoolState) (host_id : String) : Nat :=
  ((s.active_connections host_id).getD []).length

/-- `ConnectionPool._create_new_connection`: connect, and on a connected
session wrap it, mark it in use, append it to the active list and return
it; otherwise return the corresponding error message.  When
`active_connections[host_id]` is absent the source raises `KeyError`
(unreachable through the API); the model leaves the state unchanged
there. -/
def create_new_connection (s : PoolState) (host_id : String) (now : Nat) (env : Env) :
    (Option Nat × Option PoolErr) × PoolState :=
  if env.connectOk then
    let s0 := { s with created := s.created + 1 }
    if env.newIsConnected then
      let cid := s0.next_id
      let info : PooledConnection :=
        { host_id := host_id, last_used := now, in_use := true, closed := false }
      let s1 := { s0 with conns := fset s0.conns cid info, next_id := cid + 1 }
      match s1.active_connections host_id with
      | some l =>
        ((some cid, none),
          { s1 with active_connections := fset s1.active_connections host_id (l ++ [cid]) })
      | none => ((some cid, none), s1)
    else
      ((none, some (.notConnected (((s.connection_params host_id).map HostParams.host).getD ""))), s0)
  else
    ((none, some (.connectError env.connectErrMsg)), s)

/-- `ConnectionPool.get_connection`.  The queue is FIFO with the head as
the element returned by `get`.  In the saturated branch the source blocks
in `queue.get(timeout=self.connection_timeout)`; in this atomic-operation
semantics no concurrent `put` can happen during the wait, so that branch
returns the timeout error.  A registered host whose `pools` entry is
missing would raise `KeyError` in the source (unreachable through the
API); the model returns the timeout error there. -/
def get_connection (s : PoolState) (host_id : String) (now : Nat) (env : Env) :
    (Option Nat × Option PoolErr) × PoolState :=
  match s.connection_params host_id with
  | none => ((none, some (.unknownHost host_id)), s)
  | some _ =>
    match s.pools host_id with
    | none => ((none, some .timeout), s)
    | some q =>
      match q with
      | pooled :: rest =>
        let s1 := { s with pools := fset s.pools host_id rest }
        if s1.is_connected env pooled = false then
          if env.reconnectOk.contains pooled then
            ((some pooled, none),
              updConn s1 pooled (fun c => { c with closed := false, last_used := now, in_use := true }))
          else
            create_new_connection s1 host_id now env
        else
          ((some pooled, none),
            updConn s1 pooled (fun c => { c with last_used := now, in_use := true }))
      | [] =>
        if activeCount s host_id < s.max_connections then
          create_new_connection s host_id now env
        else
          ((none, some .timeout), s)

/-- `ConnectionPool.release_connection`: an invalid connection is closed
and not returned; a valid one is stamped idle and `put_nowait` into the
queue, falling back to `_close_connection` when the queue is full.  A
`queue.Queue(maxsize)` with `maxsize = 0` is unbounded, hence the
`max_connections = 0` disjunct in the fullness test.  A missing `pools`
entry for the connection's host would raise `KeyError` in the source
(unreachable through the API); the model stops there. -/
def release_connection (s : PoolState) (cid : Nat) (now : Nat) (env : Env) : PoolState :=
  match s.conns cid with
  | none => s
  | some c =>
    if s.is_connected env cid = false then
      close_connection s env cid
    else
      let s1 := { s with conns := fset s.conns cid { c with last_used := now, in_use := false } }
      match s1.pools c.host_id with
      | none => s1
      | some q =>
        if s.max_connections = 0 ∨ q.length < s.max_connections then
          { s1 with pools := fset s1.pools c.host_id (q ++ [cid]) }
        else
          close_connection s1 env cid

/-- Folding `_close_connection` over a list of wrappers (the per-host loop
bodies of `close_host_connections` and `_cleanup_idle_connections`). -/
def closeMany (s : PoolState) (env : Env) (cids : List Nat) : PoolState :=
  cids.foldl (fun acc cid => close_connection acc env cid) s

/-- The queue-draining loop of `close_host_connections`: pop every queued
wrapper and call `connection.close()` on the still-connected ones (this
loop does not touch `active_connections`). -/
def drainClose (s : PoolState) (env : Env) : List Nat → PoolState
  | [] => s
  | cid :: rest =>
    let s1 := if s.is_connected env cid then
        match s.conns cid with
        | some c => { s with conns := fset s.conns cid { c with closed := true } }
        | none => s
      else s
    drainClose s1 env rest

/-- `ConnectionPool.close_host_connections`: close every active
connection, drain and close the idle queue, then reset
`active_connections[host_id]` to `[]`.  `connection_params` is left
untouched. -/
def close_host_connections (s : PoolState) (host_id : String) (env : Env) : PoolState :=
  match s.active_connections host_id with
  | none => s
  | some conns0 =>
    let s1 := closeMany s env conns0
    let s2 := match s1.pools host_id with
      | none => s1
      | some q => { drainClose s1 env q with pools := fset s1.pools host_id [] }
    { s2 with active_connections := fset s2.active_connections host_id [] }

/-- The per-host body of `_cleanup_idle_connections`: collect the
wrappers of `active_connections[host_id]` that are not in use and idle for
strictly longer than `max_idle_time`, then `_close_connection` each. -/
def cleanupHost (s : PoolState) (env : Env) (now : Nat) (host_id : String) : PoolState :=
  match s.active_connections host_id with
  | none => s
  | some l =>
    let idle_connections := l.filter (fun cid =>
      match s.conns cid with
      | some c => !c.in_use && decide (s.max_idle_time < now - c.last_used)
      | none => false)
    closeMany s env idle_connections

/-- One pass of the idle-reaper loop body of `_cleanup_idle_connections`
(one wake-up of the cleanup thread at time `now`), scanning every key of
`active_connections`. -/
def cleanup_idle_connections (s : PoolState) (env : Env) (now : Nat) : PoolState :=
  s.host_ids.foldl (fun acc h => cleanupHost acc env now h) s

/-- `ConnectionPool.register_host`: store (or overwrite) the connection
parameters and, for a first registration, create the empty queue and the
empty active list for the host. -/
def register_host (s : PoolState) (host_id : String) (info : HostInfo) : PoolState :=
  let params : HostParams :=
    { host := info.host, port := info.port, user := info.user_name
      password := info.password, ssl_disabled := true }
  let s1 := { s with connection_params := fset s.connection_params host_id params }
  if (s1.pools host_id).isSome then s1
  else
    { s1 with pools := fset s1.pools host_id []
              active_connections := fset s1.active_connections host_id []
              host_ids := s1.host_ids ++ [host_id] }

/-- Client-visible operations on the pool.  `acquire` is
`get_connection`, `release` is `PooledConnection.close` (which forwards to
`release_connection`), `cleanup` is one pass of the idle reaper, and
`closeHost` is `close_host_connections`.  Each operation carries the
wall-clock time and the external environment of that call. -/
inductive Op where
  | register (host_id : String) (info : HostInfo)
  | acquire (host_id : String) (now : Nat) (env : Env)
  | release (cid : Nat) (now : Nat) (env : Env)
  | cleanup (now : Nat) (env : Env)
  | closeHost (host_id : String) (env : Env)

/-- One operation step; the ghost `held` list gains the connection
returned by a successful acquire and loses a released connection. -/
def stepOp (s : PoolState) : Op → PoolState
  | .register h info => register_host s h info
  | .acquire h now env =>
    let r := get_connection s h now env
    match r.1.1 with
    | some cid => { r.2 with held := r.2.held ++ [cid] }
    | none => r.2
  | .release cid now env =>
    let s' := release_connection s cid now env
    { s' with held := s'.held.erase cid }
  | .cleanup now env => cleanup_idle_connections s env now
  | .closeHost h env => close_host_connections s h env

/-- Run a sequence of operations. -/
def run (s : PoolState) (ops : List Op) : PoolState :=
  ops.foldl stepOp s

/-- Caller discipline: a release targets a currently checked-out
connection (callers only close wrappers they hold, and only once). -/
def opOkRelease (s : PoolState) : Op → Bool
  | .release cid _ _ => s.held.contains cid
  | _ => true

/-- The operation alphabet of the per-claim trace properties restricted to
registration, acquire and single release of held connections (no reaper
pass, no shutdown). -/
def opOkStrict (s : PoolState) : Op → Bool
  | .release cid _ _ => s.held.contains cid
  | .cleanup _ _ => false
  | .closeHost _ _ => false
  | _ => true

/-- Loose caller discipline: a release may target any allocated wrapper,
so the same wrapper may be released twice (`PooledConnection.close` called
again on an already-returned wrapper). -/
def opOkLoose (s : PoolState) : Op → Bool
  | .release cid _ _ => (s.conns cid).isSome
  | _ => true

/-- Validity of a whole trace under a per-step discipline. -/
def okRun (p : PoolState → Op → Bool) (s : PoolState) : List Op → Bool
  | [] => true
  | op :: rest => p s op && okRun p (stepOp s op) rest

/-- The host a connection identifier belongs to. -/
def hostOf (s : PoolState) (cid : Nat) : String :=
  match s.conns cid with
  | some c => c.host_id
  | none => ""

/-- The checked-out connections of one host. -/
def heldOf (s : PoolState) (h : String) : List Nat :=
  s.held.filter (fun cid => hostOf s cid == h)

/-- `outstanding(H)`: the number of connections of host `H` currently
checked out to callers. -/
def outstanding (s : PoolState) (h : String) : Nat :=
  (heldOf s h).length

/-- `|idle(H)|`: the length of host `H`'s idle queue. -/
def idleLen (s : PoolState) (h : String) : Nat :=
  ((s.pools h).getD []).length

/-- A concrete host-information record used by concrete traces. -/
def demoInfo : HostInfo :=
  { host := "127.0.0.1", port := 3306, user_name := "root", password := "pw" }

/-- Environment of a call during which `mysql.connector.connect` succeeds
and yields a connected session. -/
def envConnect : Env :=
  { alive := [], reconnectOk := [], connectOk := true, newIsConnected := true
    connectErrMsg := "" }

/-- Environment in which the sessions in `l` are alive and no reconnect or
connect succeeds. -/
def envAlive (l : List Nat) : Env :=
  { alive := l, reconnectOk := [], connectOk := false, newIsConnected := false
    connectErrMsg := "dead" }

example :
    let s := run (initState 2 60 300)
      [.register "h" demoInfo, .acquire "h" 0 envConnect, .release 0 1 (envAlive [0]),
       .acquire "h" 2 (envAlive [0])]
    outstanding s "h" = 1 ∧ idleLen s "h" = 0 ∧ s.created = 1 := by
  decide

/-! ### Basic lemmas about the map and state helpers -/

theorem fset_apply {κ α : Type} [DecidableEq κ] (f : κ → Option α) (k k' : κ) (v : α) :
    fset f k v k' = if k' = k then some v else f k' := rfl

theorem fset_self {κ α : Type} [DecidableEq κ] (f : κ → Option α) (k : κ) (v : α) :
    fset f k v k = some v := by
  simp [fset]

theorem fset_ne {κ α : Type} [DecidableEq κ] (f : κ → Option α) {k k' : κ} (v : α)
    (h : k' ≠ k) : fset f k v k' = f k' := by
  simp [fset, h]

theorem fset_fset_self {κ α : Type} [DecidableEq κ] (f : κ → Option α) (k : κ) (v w : α) :
    fset (fset f k v) k w = fset f k w := by
  funext k'
  by_cases h : k' = k <;> simp [fset, h]

theorem fset_eq_self {κ α : Type} [DecidableEq κ] (f : κ → Option α) (k : κ) (v : α)
    (h : f k = some v) : fset f k v = f := by
  funext k'
  by_cases hk : k' = k <;> simp [fset, hk, h.symm]

theorem hostOf_congr (s s' : PoolState) (cid : Nat)
    (h : s'.conns cid = s.conns cid) : hostOf s' cid = hostOf s cid := by
  unfold hostOf
  rw [h]

theorem hostOf_eq (s : PoolState) {cid : Nat} {c : PooledConnection}
    (h : s.conns cid = some c) : hostOf s cid = c.host_id := by
  unfold hostOf
  rw [h]

theorem outstanding_congr (s s' : PoolState) (h : String)
    (hheld : s'.held = s.held)
    (hhost : ∀ cid ∈ s.held, hostOf s' cid = hostOf s cid) :
    outstanding s' h = outstanding s h := by
  unfold outstanding heldOf
  rw [hheld]
  congr 1
  exact List.filter_congr fun cid hc => by rw [hhost cid hc]

/-- Each error message of the source is a non-empty string. -/
theorem PoolErr.message_ne_empty (e : PoolErr) : e.message ≠ "" := by
  cases e <;> intro heq <;>
    first
    | exact absurd heq (by decide)
    | · have h2 := congrArg String.data heq
        rw [PoolErr.message, String.data_append] at h2
        have h3 := congrArg List.length h2
        simp at h3

/-! ### C7: acquire on an unregistered host -/

/-- C7 (confirmed): `get_connection` on a host id that was never
registered returns no connection together with the unknown-host error and
leaves the whole pool state (including the session-creation count)
unchanged; in particular it does not block and creates nothing. -/
theorem C7_unknown_host (s : PoolState) (host_id : String) (now : Nat) (env : Env)
    (hp : s.connection_params host_id = none) :
    get_connection s host_id now env = ((none, some (.unknownHost host_id)), s) := by
  unfold get_connection
  rw [hp]

/-- Witness for C7 at a concrete state. -/
theorem C7_unknown_host_witness :
    (initState 10 60 300).connection_params "nope" = none ∧
      get_connection (initState 10 60 300) "nope" 0 envConnect =
        ((none, some (.unknownHost "nope")), initState 10 60 300) :=
  ⟨rfl, C7_unknown_host (initState 10 60 300) "nope" 0 envConnect rfl⟩

/-! ### C10: the result of acquire is exactly a connection or an error -/

/-- C10 (confirmed): every call of `get_connection` returns either a
connection and no error message, or no connection and a non-empty error
message — never both and never neither. -/
theorem C10_result_exclusive (s : PoolState) (host_id : String) (now : Nat) (env : Env) :
    ((get_connection s host_id now env).1.1.isSome ∧
        (get_connection s host_id now env).1.2 = none) ∨
      ((get_connection s host_id now env).1.1 = none ∧
        ∃ e, (get_connection s host_id now env).1.2 = some e ∧ e.message ≠ "") := by
  unfold get_connection create_new_connection updConn
  dsimp only
  repeat' split
  all_goals
    first
    | exact .inl ⟨rfl, rfl⟩
    | exact .inr ⟨rfl, _, rfl, PoolErr.message_ne_empty _⟩

/-! ### C6: releasing an invalid connection -/

theorem length_filter_erase {l : List Nat} {a : Nat} {p : Nat → Bool}
    (ha : a ∈ l) (hp : p a = true) :
    (l.filter p).length = ((l.erase a).filter p).length + 1 := by
  have hperm := (List.perm_cons_erase ha).filter p
  rw [hperm.length_eq, List.filter_cons_of_pos hp]
  simp [Nat.add_comm]

/-- C6 (confirmed): `release_connection` on a checked-out connection that
fails the `is_connected` validation runs `_close_connection`: the
connection is removed from `active_connections` (so the outstanding count
drops by exactly one), the idle queues are untouched, and the connection
is not put back into the pool. -/
theorem C6_release_invalid (s : PoolState) (cid : Nat) (c : PooledConnection)
    (now : Nat) (env : Env) (l : List Nat)
    (hc : s.conns cid = some c)
    (hdead : s.is_connected env cid = false)
    (hheld : cid ∈ s.held)
    (hl : s.active_connections c.host_id = some l)
    (hcl : cid ∈ l) (hlnd : l.Nodup) :
    outstanding (stepOp s (.release cid now env)) c.host_id + 1 =
        outstanding s c.host_id ∧
      (stepOp s (.release cid now env)).pools = s.pools ∧
      (stepOp s (.release cid now env)).active_connections c.host_id =
        some (l.erase cid) ∧
      cid ∉ l.erase cid := by
  have hstep : stepOp s (.release cid now env) =
      { s with active_connections := fset s.active_connections c.host_id (l.erase cid),
               held := s.held.erase cid } := by
    unfold stepOp release_connection close_connection
    simp [hc, hdead, hl, hcl]
  rw [hstep]
  refine ⟨?_, rfl, fset_self _ _ _, hlnd.not_mem_erase⟩
  have hout : outstanding
      { s with active_connections := fset s.active_connections c.host_id (l.erase cid),
               held := s.held.erase cid } c.host_id =
      ((s.held.erase cid).filter (fun x => hostOf s x == c.host_id)).length := rfl
  rw [hout]
  have hp : (fun x => hostOf s x == c.host_id) cid = true := by
    simp [hostOf_eq s hc]
  exact (length_filter_erase hheld hp).symm

/-- The pool state after registering one host and creating one connection,
used by concrete instantiations. -/
def oneConnState : PoolState :=
  run (initState 2 60 300) [.register "h" demoInfo, .acquire "h" 0 envConnect]

/-- The wrapper record of the connection created in `oneConnState`. -/
def oneConn : PooledConnection :=
  { host_id := "h", last_used := 0, in_use := true, closed := false }

/-- Witness for C6: in the concrete one-connection state, releasing the
checked-out connection while its session is dead drops outstanding from 1
to 0 and leaves the (empty) idle queue alone. -/
theorem C6_release_invalid_witness :
    oneConnState.conns 0 = some oneConn ∧
      (outstanding (stepOp oneConnState (.release 0 3 (envAlive []))) oneConn.host_id + 1 =
          outstanding oneConnState oneConn.host_id ∧
        (stepOp oneConnState (.release 0 3 (envAlive []))).pools = oneConnState.pools ∧
        (stepOp oneConnState (.release 0 3 (envAlive []))).active_connections oneConn.host_id =
          some ([0].erase 0) ∧
        0 ∉ [0].erase 0) :=
  ⟨by decide,
    C6_release_invalid oneConnState 0 oneConn 3 (envAlive []) [0]
      (by decide) (by decide) (by decide) (by decide) (by decide) (by decide)⟩

/-! ### Effect of `close_host_connections` on the bookkeeping fields -/

theorem close_connection_fields (s : PoolState) (env : Env) (cid : Nat) :
    (close_connection s env cid).connection_params = s.connection_params ∧
      (close_connection s env cid).pools = s.pools ∧
      (close_connection s env cid).max_connections = s.max_connections ∧
      (close_connection s env cid).next_id = s.next_id ∧
      (close_connection s env cid).held = s.held ∧
      (close_connection s env cid).created = s.created ∧
      (close_connection s env cid).host_ids = s.host_ids := by
  unfold close_connection
  repeat (any_goals (first | split | dsimp only))
  all_goals simp

theorem closeMany_fields (env : Env) (cids : List Nat) : ∀ s : PoolState,
    (closeMany s env cids).connection_params = s.connection_params ∧
      (closeMany s env cids).pools = s.pools ∧
      (closeMany s env cids).max_connections = s.max_connections ∧
      (closeMany s env cids).next_id = s.next_id ∧
      (closeMany s env cids).held = s.held ∧
      (closeMany s env cids).created = s.created ∧
      (closeMany s env cids).host_ids = s.host_ids := by
  induction cids with
  | nil => intro s; exact ⟨rfl, rfl, rfl, rfl, rfl, rfl, rfl⟩
  | cons cid rest ih =>
    intro s
    have h1 := close_connection_fields s env cid
    have h2 := ih (close_connection s env cid)
    unfold closeMany at h2 ⊢
    simp only [List.foldl_cons]
    exact ⟨h2.1.trans h1.1, h2.2.1.trans h1.2.1, h2.2.2.1.trans h1.2.2.1,
      h2.2.2.2.1.trans h1.2.2.2.1, h2.2.2.2.2.1.trans h1.2.2.2.2.1,
      h2.2.2.2.2.2.1.trans h1.2.2.2.2.2.1, h2.2.2.2.2.2.2.trans h1.2.2.2.2.2.2⟩

theorem drainClose_fields (env : Env) (q : List Nat) : ∀ s : PoolState,
    (drainClose s env q).connection_params = s.connection_params ∧
      (drainClose s env q).pools = s.pools ∧
      (drainClose s env q).active_connections = s.active_connections ∧
      (drainClose s env q).max_connections = s.max_connections ∧
      (drainClose s env q).next_id = s.next_id ∧
      (drainClose s env q).held = s.held := by
  induction q with
  | nil => intro s; exact ⟨rfl, rfl, rfl, rfl, rfl, rfl⟩
  | cons cid rest ih =>
    intro s
    unfold drainClose
    repeat (any_goals (first | split | dsimp only))
    all_goals exact ih _

theorem close_host_effect (s : PoolState) (h : String) (env : Env) (l q : List Nat)
    (hl : s.active_connections h = some l) (hq : s.pools h = some q) :
    (close_host_connections s h env).connection_params = s.connection_params ∧
      (close_host_connections s h env).pools h = some [] ∧
      (close_host_connections s h env).active_connections h = some [] ∧
      (close_host_connections s h env).max_connections = s.max_connections ∧
      (close_host_connections s h env).next_id = s.next_id := by
  have hcm := closeMany_fields env l s
  have hdc := drainClose_fields env q (closeMany s env l)
  unfold close_host_connections
  rw [hl]
  dsimp only
  rw [hcm.2.1, hq]
  dsimp only
  refine ⟨?_, ?_, fset_self _ _ _, ?_, ?_⟩
  · exact hdc.1.trans hcm.1
  · exact fset_self _ _ _
  · exact hdc.2.2.2.1.trans hcm.2.2.1
  · exact hdc.2.2.2.2.1.trans hcm.2.2.2.1

/-! ### The fresh-connection path of acquire -/

theorem get_connection_create (s : PoolState) (h : String) (now : Nat) (env : Env)
    (p : HostParams) (l : List Nat)
    (hp : s.connection_params h = some p)
    (hq : s.pools h = some [])
    (hl : s.active_connections h = some l)
    (hcap : l.length < s.max_connections)
    (hok : env.connectOk = true) (hnew : env.newIsConnected = true) :
    get_connection s h now env = ((some s.next_id, none),
      { s with conns := fset s.conns s.next_id
                 { host_id := h, last_used := now, in_use := true, closed := false },
               next_id := s.next_id + 1, created := s.created + 1,
               active_connections := fset s.active_connections h (l ++ [s.next_id]) }) := by
  unfold get_connection create_new_connection activeCount
  rw [hp, hq]
  dsimp only
  rw [hl]
  simp only [Option.getD_some, hcap, if_true, hok, hnew]

/-! ### C2: acquire after `close_host_connections` -/

/-- Counterexample to C2 as stated: after registering host `"h"`,
creating and releasing one connection and then running
`close_host_connections "h"`, a subsequent `get_connection` does not fail
with any pool-closed error — it succeeds and hands out a freshly created
connection (the session-creation count rises from 1 to 2). -/
theorem C2_counterexample :
    okRun opOkRelease (initState 10 60 300)
        [.register "h" demoInfo, .acquire "h" 0 envConnect, .release 0 1 (envAlive [0]),
         .closeHost "h" (envAlive [0])] = true ∧
      (get_connection
          (run (initState 10 60 300)
            [.register "h" demoInfo, .acquire "h" 0 envConnect, .release 0 1 (envAlive [0]),
             .closeHost "h" (envAlive [0])])
          "h" 5 envConnect).1 = (some 1, none) ∧
      (run (initState 10 60 300)
          [.register "h" demoInfo, .acquire "h" 0 envConnect, .release 0 1 (envAlive [0]),
           .closeHost "h" (envAlive [0])]).created = 1 ∧
      (get_connection
          (run (initState 10 60 300)
            [.register "h" demoInfo, .acquire "h" 0 envConnect, .release 0 1 (envAlive [0]),
             .closeHost "h" (envAlive [0])])
          "h" 5 envConnect).2.created = 2 :=
  ⟨by decide, by decide, by decide, by decide⟩

/-- C2 (corrected): `close_host_connections` leaves the host registered
(`connection_params` is untouched and there is no pool-closed flag or
`PoolClosedError` anywhere in the module), so a subsequent
`get_connection` does not fail immediately — whenever a connection can be
established it succeeds by creating a brand-new connection. -/
theorem C2_amended (s : PoolState) (h : String) (envC envA : Env) (now : Nat)
    (p : HostParams) (l q : List Nat)
    (hp : s.connection_params h = some p)
    (hl : s.active_connections h = some l)
    (hq : s.pools h = some q)
    (hmax : 1 ≤ s.max_connections)
    (hok : envA.connectOk = true) (hnew : envA.newIsConnected = true) :
    (close_host_connections s h envC).connection_params h = some p ∧
      (get_connection (close_host_connections s h envC) h now envA).1.1 =
        some (close_host_connections s h envC).next_id ∧
      (get_connection (close_host_connections s h envC) h now envA).1.2 = none := by
  obtain ⟨hparams, hpools, hactive, hmaxeq, -⟩ := close_host_effect s h envC l q hl hq
  have hp' : (close_host_connections s h envC).connection_params h = some p := by
    rw [hparams, hp]
  have hcap : ([] : List Nat).length < (close_host_connections s h envC).max_connections := by
    rw [hmaxeq]
    simpa using hmax
  have hrun := get_connection_create (close_host_connections s h envC) h now envA p []
    hp' hpools hactive hcap hok hnew
  rw [hrun]
  exact ⟨hp', rfl, rfl⟩

/-- The pool state after registering `"h"`, acquiring one connection and
releasing it, with `max_connections = 10`. -/
def c2base : PoolState :=
  run (initState 10 60 300)
    [.register "h" demoInfo, .acquire "h" 0 envConnect, .release 0 1 (envAlive [0])]

/-- The stored parameters that `register_host` builds from `demoInfo`. -/
def demoParams : HostParams :=
  { host := "127.0.0.1", port := 3306, user := "root", password := "pw", ssl_disabled := true }

/-- Witness for C2 (amended) at the concrete one-connection state. -/
theorem C2_amended_witness :
    c2base.connection_params "h" = some demoParams ∧
      ((close_host_connections c2base "h" (envAlive [0])).connection_params "h" = some demoParams ∧
        (get_connection (close_host_connections c2base "h" (envAlive [0])) "h" 5 envConnect).1.1 =
          some (close_host_connections c2base "h" (envAlive [0])).next_id ∧
        (get_connection (close_host_connections c2base "h" (envAlive [0])) "h" 5 envConnect).1.2 =
          none) :=
  ⟨by decide,
    C2_amended c2base "h" (envAlive [0]) envConnect 5 demoParams [0] [0]
      (by decide) (by decide) (by decide) (by decide) (by decide) (by decide)⟩

/-! ### C4: acquire pulling an invalid idle connection -/

/-- The pool state with two idle connections `[0, 1]` for `"h"`
(`max_connections = 5`). -/
def twoIdleState : PoolState :=
  run (initState 5 60 300)
    [.register "h" demoInfo, .acquire "h" 0 envConnect, .acquire "h" 0 envConnect,
     .release 0 1 (envAlive [0, 1]), .release 1 1 (envAlive [0, 1])]

/-- Environment in which session 0 is dead (no reconnect), session 1 is
alive, and a fresh connect succeeds. -/
def envDead0 : Env :=
  { alive := [1], reconnectOk := [], connectOk := true, newIsConnected := true
    connectErrMsg := "" }

/-- Counterexample to C4 as stated: with idle queue `[0, 1]` where
connection 0 is dead, `get_connection` neither closes 0 nor removes it
from `active_connections` (it stays, still marked un-closed), and the
returned replacement is the brand-new connection 2 rather than the
remaining valid idle connection 1. -/
theorem C4_counterexample :
    okRun opOkRelease (initState 5 60 300)
        [.register "h" demoInfo, .acquire "h" 0 envConnect, .acquire "h" 0 envConnect,
         .release 0 1 (envAlive [0, 1]), .release 1 1 (envAlive [0, 1])] = true ∧
      twoIdleState.pools "h" = some [0, 1] ∧
      twoIdleState.is_connected envDead0 0 = false ∧
      (get_connection twoIdleState "h" 2 envDead0).1 = (some 2, none) ∧
      (get_connection twoIdleState "h" 2 envDead0).2.active_connections "h" =
        some [0, 1, 2] ∧
      ((get_connection twoIdleState "h" 2 envDead0).2.conns 0).map PooledConnection.closed =
        some false :=
  ⟨by decide, by decide, by decide, by decide, by decide, by decide⟩

/-- C4 (corrected): when acquire pops an idle connection that fails
validation, it first tries `reconnect(attempts=1)` on that same
connection and returns it on success (no new session); on reconnect
failure it immediately calls `_create_new_connection`, so the invalid
connection is neither closed nor removed from `active_connections`, the
remaining idle queue is not consulted and the replacement — when connect
succeeds — is a brand-new connection.  No distinct validation error is
surfaced (the call returns a connection, or a connection-establishment
error from creating the replacement). -/
theorem C4_amended (s : PoolState) (h : String) (now : Nat) (env : Env)
    (cid : Nat) (rest : List Nat) (c : PooledConnection) (p : HostParams) (l : List Nat)
    (hp : s.connection_params h = some p)
    (hq : s.pools h = some (cid :: rest))
    (hc : s.conns cid = some c)
    (hdead : s.is_connected env cid = false)
    (hl : s.active_connections h = some l)
    (hcl : cid ∈ l)
    (hfresh : cid < s.next_id) :
    (env.reconnectOk.contains cid = true →
      (get_connection s h now env).1 = (some cid, none) ∧
        (get_connection s h now env).2.created = s.created) ∧
      (env.reconnectOk.contains cid = false →
        (get_connection s h now env).2.conns cid = some c ∧
          (∃ l2, (get_connection s h now env).2.active_connections h = some l2 ∧ cid ∈ l2) ∧
          (get_connection s h now env).2.pools h = some rest ∧
          (env.connectOk = true → env.newIsConnected = true →
            (get_connection s h now env).1 = (some s.next_id, none))) := by
  have hdead' : (!c.closed && env.alive.contains cid) = false := by
    unfold PoolState.is_connected at hdead
    rwa [hc] at hdead
  have hne : cid ≠ s.next_id := Nat.ne_of_lt hfresh
  constructor
  · intro hrec
    unfold get_connection updConn
    rw [hp, hq]
    dsimp only
    simp only [PoolState.is_connected, hc, hdead', hrec, if_true]
    simp
  · intro hrec
    unfold get_connection updConn create_new_connection
    rw [hp, hq]
    dsimp only
    simp only [PoolState.is_connected, hc, hdead', hrec, Bool.false_eq_true, if_false]
    by_cases hok : env.connectOk
    · by_cases hnew : env.newIsConnected
      · simp only [hok, hnew, if_true]
        rw [hl]
        refine ⟨?_, ⟨l ++ [s.next_id], ?_, ?_⟩, ?_, fun _ _ => rfl⟩
        · exact (fset_ne s.conns _ hne).trans hc
        · exact fset_self _ _ _
        · exact List.mem_append_left _ hcl
        · exact fset_self _ _ _
      · simp only [hok, hnew, Bool.false_eq_true, if_false, if_true]
        exact ⟨hc, ⟨l, hl, hcl⟩, fset_self _ _ _, fun _ hn => hn.elim⟩
    · simp only [hok, Bool.false_eq_true, if_false]
      exact ⟨hc, ⟨l, hl, hcl⟩, fset_self _ _ _, fun hn => hn.elim⟩

/-- Witness for C4 (amended) at the concrete two-idle state. -/
theorem C4_amended_witness :
    twoIdleState.conns 0 = some
        { host_id := "h", last_used := 1, in_use := false, closed := false } ∧
      ((envDead0.reconnectOk.contains 0 = true →
          (get_connection twoIdleState "h" 2 envDead0).1 = (some 0, none) ∧
            (get_connection twoIdleState "h" 2 envDead0).2.created = twoIdleState.created) ∧
        (envDead0.reconnectOk.contains 0 = false →
          (get_connection twoIdleState "h" 2 envDead0).2.conns 0 = some
              { host_id := "h", last_used := 1, in_use := false, closed := false } ∧
            (∃ l2, (get_connection twoIdleState "h" 2 envDead0).2.active_connections "h" =
                some l2 ∧ 0 ∈ l2) ∧
            (get_connection twoIdleState "h" 2 envDead0).2.pools "h" = some [1] ∧
            (envDead0.connectOk = true → envDead0.newIsConnected = true →
              (get_connection twoIdleState "h" 2 envDead0).1 =
                (some twoIdleState.next_id, none)))) :=
  ⟨by decide,
    C4_amended twoIdleState "h" 2 envDead0 0 [1]
      { host_id := "h", last_used := 1, in_use := false, closed := false }
      demoParams [0, 1]
      (by decide) (by decide) (by decide) (by decide) (by decide) (by decide) (by decide)⟩

/-! ### C8: acquire, release, acquire reuses the connection -/

theorem release_connection_enqueue (s : PoolState) (cid : Nat) (c : PooledConnection)
    (now : Nat) (env : Env) (q : List Nat)
    (hc : s.conns cid = some c)
    (halive : (!c.closed && env.alive.contains cid) = true)
    (hq : s.pools c.host_id = some q)
    (hroom : s.max_connections = 0 ∨ q.length < s.max_connections) :
    release_connection s cid now env =
      { s with conns := fset s.conns cid { c with last_used := now, in_use := false },
               pools := fset s.pools c.host_id (q ++ [cid]) } := by
  unfold release_connection PoolState.is_connected
  rw [hc]
  dsimp only
  simp only [halive, Bool.true_eq_false, if_false]
  rw [hq]
  simp only [hroom, if_true]

theorem get_connection_pop (s : PoolState) (h : String) (now : Nat) (env : Env)
    (p : HostParams) (cid : Nat) (rest : List Nat) (c : PooledConnection)
    (hp : s.connection_params h = some p)
    (hq : s.pools h = some (cid :: rest))
    (hc : s.conns cid = some c)
    (halive : (!c.closed && env.alive.contains cid) = true) :
    get_connection s h now env = ((some cid, none),
      { s with pools := fset s.pools h rest,
               conns := fset s.conns cid { c with last_used := now, in_use := true } }) := by
  unfold get_connection updConn PoolState.is_connected
  rw [hp, hq]
  dsimp only
  rw [hc]
  simp only [halive, Bool.true_eq_false, if_false]

/-- C8 (confirmed): on an otherwise-idle, uncontended pool (empty idle
queue, room under the cap), acquiring, releasing and acquiring again
hands back the very same connection, and the second acquire establishes
no new underlying session (the creation count after the round trip equals
the count right after the first acquire). -/
theorem C8_reuse (s : PoolState) (h : String) (t1 t2 t3 : Nat)
    (env1 env2 env3 : Env) (p : HostParams) (l : List Nat)
    (hp : s.connection_params h = some p)
    (hq : s.pools h = some [])
    (hl : s.active_connections h = some l)
    (hcap : l.length < s.max_connections)
    (h1 : env1.connectOk = true) (h1b : env1.newIsConnected = true)
    (h2 : env2.alive.contains s.next_id = true)
    (h3 : env3.alive.contains s.next_id = true) :
    (get_connection s h t1 env1).1 = (some s.next_id, none) ∧
      (get_connection
          (release_connection (get_connection s h t1 env1).2 s.next_id t2 env2)
          h t3 env3).1 = (some s.next_id, none) ∧
      (get_connection
          (release_connection (get_connection s h t1 env1).2 s.next_id t2 env2)
          h t3 env3).2.created = (get_connection s h t1 env1).2.created := by
  have e1 := get_connection_create s h t1 env1 p l hp hq hl hcap h1 h1b
  set s1 := (get_connection s h t1 env1).2 with hs1
  have f1c : s1.conns s.next_id =
      some { host_id := h, last_used := t1, in_use := true, closed := false } := by
    rw [hs1, e1]; exact fset_self _ _ _
  have f1q : s1.pools h = some [] := by
    rw [hs1, e1]; exact hq
  have f1p : s1.connection_params h = some p := by
    rw [hs1, e1]; exact hp
  have f1max : s1.max_connections = s.max_connections := by
    rw [hs1, e1]
  have e2 := release_connection_enqueue s1 s.next_id
    { host_id := h, last_used := t1, in_use := true, closed := false }
    t2 env2 [] f1c (by simpa using h2) f1q
    (Or.inr (by rw [f1max]; exact Nat.lt_of_le_of_lt (Nat.zero_le _) hcap))
  set s2 := release_connection s1 s.next_id t2 env2 with hs2
  have f2c : s2.conns s.next_id =
      some { host_id := h, last_used := t2, in_use := false, closed := false } := by
    rw [e2]; exact fset_self _ _ _
  have f2q : s2.pools h = some (s.next_id :: []) := by
    rw [e2]; exact fset_self _ _ _
  have f2p : s2.connection_params h = some p := by
    rw [e2]; exact f1p
  have f2created : s2.created = s1.created := by
    rw [e2]
  have e3 := get_connection_pop s2 h t3 env3 p s.next_id []
    { host_id := h, last_used := t2, in_use := false, closed := false }
    f2p f2q f2c (by simpa using h3)
  refine ⟨by rw [e1], ?_, ?_⟩
  · rw [e3]
  · rw [e3]; exact f2created

/-- The pool state right after registering `"h"` with `max_connections = 2`. -/
def freshHostState : PoolState :=
  run (initState 2 60 300) [.register "h" demoInfo]

/-- Witness for C8 at the freshly registered host. -/
theorem C8_reuse_witness :
    freshHostState.pools "h" = some [] ∧
      ((get_connection freshHostState "h" 0 envConnect).1 =
          (some freshHostState.next_id, none) ∧
        (get_connection
            (release_connection (get_connection freshHostState "h" 0 envConnect).2
              freshHostState.next_id 1 (envAlive [0]))
            "h" 2 (envAlive [0])).1 = (some freshHostState.next_id, none) ∧
        (get_connection
            (release_connection (get_connection freshHostState "h" 0 envConnect).2
              freshHostState.next_id 1 (envAlive [0]))
            "h" 2 (envAlive [0])).2.created =
          (get_connection freshHostState "h" 0 envConnect).2.created) :=
  ⟨by decide,
    C8_reuse freshHostState "h" 0 1 2 envConnect (envAlive [0]) (envAlive [0]) demoParams []
      (by decide) (by decide) (by decide) (by decide) (by decide) (by decide)
      (by decide) (by decide)⟩

/-! ### C9: one reaper pass with a zero idle threshold -/

theorem foldl_erase_self (l : List Nat) :
    List.foldl (fun acc cid => acc.erase cid) l l = [] := by
  induction l with
  | nil => rfl
  | cons a t ih =>
    simp only [List.foldl_cons, List.erase_cons_head]
    exact ih

theorem closeMany_spec (env : Env) (q : List Nat) :
    ∀ (s : PoolState) (h : String) (l : List Nat),
      s.active_connections h = some l →
      q.Nodup →
      (∀ cid ∈ q, ∃ c, s.conns cid = some c ∧ c.host_id = h ∧ c.closed = false ∧
          env.alive.contains cid = true) →
      (closeMany s env q).pools = s.pools ∧
        (closeMany s env q).active_connections h =
          some (q.foldl (fun acc cid => acc.erase cid) l) ∧
        (∀ cid ∈ q, ∃ c, s.conns cid = some c ∧
          (closeMany s env q).conns cid = some { c with closed := true }) ∧
        (∀ cid, cid ∉ q → (closeMany s env q).conns cid = s.conns cid) ∧
        (closeMany s env q).held = s.held := by
  induction q with
  | nil =>
    intro s h l hl _ _
    exact ⟨rfl, by simpa using hl, by simp, fun _ _ => rfl, rfl⟩
  | cons cid rest ih =>
    intro s h l hl hnd hq
    obtain ⟨c, hc, hchost, hcclosed, hcalive⟩ := hq cid (List.mem_cons_self _ _)
    have hcidrest : cid ∉ rest := (List.nodup_cons.mp hnd).1
    have hrestnd : rest.Nodup := (List.nodup_cons.mp hnd).2
    have hconn : s.is_connected env cid = true := by
      simp [PoolState.is_connected, hc, hcclosed]
      simpa using hcalive
    have hstep : close_connection s env cid =
        { s with conns := fset s.conns cid { c with closed := true },
                 active_connections := fset s.active_connections h (l.erase cid) } := by
      unfold close_connection
      rw [hc]
      dsimp only
      simp only [hconn, if_true]
      rw [hchost, hl]
      dsimp only
      by_cases hmem : cid ∈ l
      · have hcont : l.contains cid = true := by simpa using hmem
        rw [hcont]
        simp only [if_true]
      · have hcont : l.contains cid = false := by simpa using hmem
        rw [hcont]
        simp only [Bool.false_eq_true, if_false]
        rw [List.erase_of_not_mem hmem, fset_eq_self s.active_connections h l hl]
    set s' : PoolState :=
      { s with conns := fset s.conns cid { c with closed := true },
               active_connections := fset s.active_connections h (l.erase cid) } with hs'
    have hl' : s'.active_connections h = some (l.erase cid) := fset_self _ _ _
    have hq' : ∀ cid2 ∈ rest, ∃ c2, s'.conns cid2 = some c2 ∧ c2.host_id = h ∧
        c2.closed = false ∧ env.alive.contains cid2 = true := by
      intro cid2 h2
      obtain ⟨c2, hc2, hh2, hcl2, ha2⟩ := hq cid2 (List.mem_cons_of_mem _ h2)
      have hne2 : cid2 ≠ cid := fun he => hcidrest (he ▸ h2)
      exact ⟨c2, (fset_ne s.conns _ hne2).trans hc2, hh2, hcl2, ha2⟩
    obtain ⟨ihpools, ihactive, ihclosed, ihkeep, ihheld⟩ :=
      ih s' h (l.erase cid) hl' hrestnd hq'
    have hcm : closeMany s env (cid :: rest) = closeMany s' env rest := by
      unfold closeMany
      simp only [List.foldl_cons]
      rw [hstep]
    rw [hcm]
    refine ⟨ihpools, ?_, ?_, ?_, ihheld⟩
    · rw [ihactive]
      simp [List.foldl_cons]
    · intro cid2 h2
      rcases List.mem_cons.mp h2 with he | h2r
      · subst he
        refine ⟨c, hc, ?_⟩
        rw [ihkeep cid2 hcidrest]
        exact fset_self _ _ _
      · obtain ⟨c2, hc2, hfin⟩ := ihclosed cid2 h2r
        have hne2 : cid2 ≠ cid := fun he => hcidrest (he ▸ h2r)
        exact ⟨c2, ((fset_ne s.conns _ hne2).symm.trans hc2 : s.conns cid2 = some c2), hfin⟩
    · intro cid2 h2
      have hne2 : cid2 ≠ cid := fun he => h2 (he ▸ List.mem_cons_self _ _)
      have h2r : cid2 ∉ rest := fun hr => h2 (List.mem_cons_of_mem _ hr)
      rw [ihkeep cid2 h2r]
      exact fset_ne s.conns _ hne2

/-- Counterexample to C9 as stated: with one idle connection (id 0) in
both the queue and the active list, `max_idle_time = 0` and no checked-out
connections, one reaper pass at time 1 closes connection 0 and removes it
from `active_connections` — but the wrapper stays in the pool's queue, so
the idle set size is still 1, not 0. -/
theorem C9_counterexample :
    okRun opOkRelease (initState 1 60 0)
        [.register "h" demoInfo, .acquire "h" 0 envConnect, .release 0 0 (envAlive [0]),
         .cleanup 1 (envAlive [0])] = true ∧
      idleLen (run (initState 1 60 0)
        [.register "h" demoInfo, .acquire "h" 0 envConnect, .release 0 0 (envAlive [0])]) "h" = 1 ∧
      outstanding (run (initState 1 60 0)
        [.register "h" demoInfo, .acquire "h" 0 envConnect, .release 0 0 (envAlive [0])]) "h" = 0 ∧
      ((run (initState 1 60 0)
          [.register "h" demoInfo, .acquire "h" 0 envConnect, .release 0 0 (envAlive [0]),
           .cleanup 1 (envAlive [0])]).conns 0).map PooledConnection.closed = some true ∧
      idleLen (run (initState 1 60 0)
        [.register "h" demoInfo, .acquire "h" 0 envConnect, .release 0 0 (envAlive [0]),
         .cleanup 1 (envAlive [0])]) "h" = 1 :=
  ⟨by decide, by decide, by decide, by decide, by decide⟩

/-- C9 (corrected): one reaper pass with `max_idle_time = 0` over a pool
holding the idle connections `q` (and nothing checked out) closes every
one of them and removes them all from `active_connections`, never touching
in-use wrappers — but it does not drain the queue: `pools[h]` still holds
all of `q`, so the queue length stays `N` instead of dropping to 0. -/
theorem C9_amended (s : PoolState) (h : String) (q : List Nat) (env : Env) (now : Nat)
    (hids : s.host_ids = [h])
    (hmaxidle : s.max_idle_time = 0)
    (hq : s.pools h = some q)
    (hl : s.active_connections h = some q)
    (hheld : s.held = [])
    (hnd : q.Nodup)
    (hconns : ∀ cid ∈ q, ∃ c, s.conns cid = some c ∧ c.host_id = h ∧ c.closed = false ∧
        c.in_use = false ∧ 0 < now - c.last_used ∧ env.alive.contains cid = true) :
    (cleanup_idle_connections s env now).active_connections h = some [] ∧
      (cleanup_idle_connections s env now).pools h = some q ∧
      idleLen (cleanup_idle_connections s env now) h = q.length ∧
      outstanding (cleanup_idle_connections s env now) h = 0 ∧
      (∀ cid ∈ q, ∃ c, (cleanup_idle_connections s env now).conns cid = some c ∧
        c.closed = true) ∧
      (∀ cid c, s.conns cid = some c → c.in_use = true →
        (cleanup_idle_connections s env now).conns cid = some c) := by
  have hfilter : (q.filter (fun cid =>
      match s.conns cid with
      | some c => !c.in_use && decide (s.max_idle_time < now - c.last_used)
      | none => false)) = q := by
    refine List.filter_eq_self.mpr fun cid hcid => ?_
    obtain ⟨c, hc, -, -, hin, hage, -⟩ := hconns cid hcid
    rw [hc]
    simp only [hin, hmaxidle]
    simpa using hage
  have hpass : cleanup_idle_connections s env now = closeMany s env q := by
    unfold cleanup_idle_connections
    rw [hids]
    simp only [List.foldl_cons, List.foldl_nil]
    unfold cleanupHost
    rw [hl]
    dsimp only
    rw [hfilter]
  obtain ⟨cpools, cactive, cclosed, ckeep, cheld⟩ := closeMany_spec env q s h q hl hnd
    (fun cid hcid => by
      obtain ⟨c, hc, hh, hcl, -, -, ha⟩ := hconns cid hcid
      exact ⟨c, hc, hh, hcl, ha⟩)
  rw [hpass]
  refine ⟨?_, ?_, ?_, ?_, ?_, ?_⟩
  · rw [cactive, foldl_erase_self]
  · rw [cpools, hq]
  · unfold idleLen
    rw [cpools, hq]
    rfl
  · unfold outstanding heldOf
    rw [cheld, hheld]
    rfl
  · intro cid hcid
    obtain ⟨c, -, hfin⟩ := cclosed cid hcid
    exact ⟨{ c with closed := true }, hfin, rfl⟩
  · intro cid c hc hin
    have hnot : cid ∉ q := fun hcid => by
      obtain ⟨c2, hc2, -, -, hin2, -, -⟩ := hconns cid hcid
      rw [hc] at hc2
      cases hc2
      rw [hin] at hin2
      cases hin2
    rw [ckeep cid hnot, hc]

/-- The pool state with one idle connection and `max_idle_time = 0`. -/
def c9base : PoolState :=
  run (initState 1 60 0)
    [.register "h" demoInfo, .acquire "h" 0 envConnect, .release 0 0 (envAlive [0])]

/-- Witness for C9 (amended) at the concrete one-idle-connection state. -/
theorem C9_amended_witness :
    c9base.host_ids = ["h"] ∧
      ((cleanup_idle_connections c9base (envAlive [0]) 1).active_connections "h" = some [] ∧
        (cleanup_idle_connections c9base (envAlive [0]) 1).pools "h" = some [0] ∧
        idleLen (cleanup_idle_connections c9base (envAlive [0]) 1) "h" = [0].length ∧
        outstanding (cleanup_idle_connections c9base (envAlive [0]) 1) "h" = 0 ∧
        (∀ cid ∈ [0], ∃ c, (cleanup_idle_connections c9base (envAlive [0]) 1).conns cid =
            some c ∧ c.closed = true) ∧
        (∀ cid c, c9base.conns cid = some c → c.in_use = true →
          (cleanup_idle_connections c9base (envAlive [0]) 1).conns cid = some c)) :=
  ⟨by decide,
    C9_amended c9base "h" [0] (envAlive [0]) 1 (by decide) (by decide) (by decide)
      (by decide) (by decide) (by decide)
      (fun cid hcid => by
        have hz : cid = 0 := by simpa using hcid
        subst hz
        exact ⟨{ host_id := "h", last_used := 0, in_use := false, closed := false },
          by decide, rfl, rfl, rfl, by decide, by decide⟩)⟩

/-! ### C1 and C5: the counterexample traces -/

/-- Environment in which no session is alive but `reconnect` succeeds for
session 0 (the driver re-establishes the closed session). -/
def envRevive : Env :=
  { alive := [], reconnectOk := [0], connectOk := false, newIsConnected := false
    connectErrMsg := "" }

/-- The C1 violation trace (`max_connections = 1`, `max_idle_time = 0`):
create connection 0, release it, let the reaper evict it (it stays in the
queue), revive it through the reconnect path of acquire, then acquire
again — the empty active list lets a second connection be created. -/
def c1ops : List Op :=
  [.register "h" demoInfo, .acquire "h" 0 envConnect, .release 0 0 (envAlive [0]),
   .cleanup 1 (envAlive [0]), .acquire "h" 2 envRevive, .acquire "h" 3 envConnect]

/-- Counterexample to C1 as stated: after the valid trace `c1ops` (every
release targets a held connection; operations are register, acquire,
release and one idle-eviction pass), two connections of host `"h"` are
checked out at once while `max_connections = 1`:
`outstanding + |idle| = 2 > 1`. -/
theorem C1_counterexample :
    okRun opOkRelease (initState 1 60 0) c1ops = true ∧
      (run (initState 1 60 0) c1ops).max_connections = 1 ∧
      (run (initState 1 60 0) c1ops).held = [0, 1] ∧
      outstanding (run (initState 1 60 0) c1ops) "h" +
        idleLen (run (initState 1 60 0) c1ops) "h" = 2 :=
  ⟨by decide, by decide, by decide, by decide⟩

/-- The C5 violation trace (`max_connections = 2`): acquire connection 0,
then call `PooledConnection.close` on it twice — the second release finds
the wrapper still connected and enqueues it again. -/
def c5ops : List Op :=
  [.register "h" demoInfo, .acquire "h" 0 envConnect, .release 0 1 (envAlive [0]),
   .release 0 2 (envAlive [0])]

/-- Counterexample to C5 as stated: the double release puts the same
wrapper in the idle queue twice, and two subsequent acquires hand the very
same connection to two callers at once. -/
theorem C5_counterexample :
    okRun opOkLoose (initState 2 60 300)
        (c5ops ++ [.acquire "h" 3 (envAlive [0]), .acquire "h" 4 (envAlive [0])]) = true ∧
      (run (initState 2 60 300) c5ops).pools "h" = some [0, 0] ∧
      (run (initState 2 60 300)
        (c5ops ++ [.acquire "h" 3 (envAlive [0]), .acquire "h" 4 (envAlive [0])])).held =
        [0, 0] :=
  ⟨by decide, by decide, by decide⟩

/-! ### The inductive invariant for C1 and C5 (amended) -/

/-- The inductive invariant of pool states reachable under the strict
caller discipline (registration, acquire, single release of held
connections), parameterized by the configured cap `m`:

* the ghost `held` list and every idle queue are duplicate-free, mutually
  disjoint and consist of allocated connections of the right host that
  also appear in the host's `active_connections` entry;
* registered hosts have a queue and an active list;
* allocated identifiers are below the allocator counter;
* per host, checked-out plus queued connections never exceed the cap. -/
structure PoolInv (m : Nat) (s : PoolState) : Prop where
  maxc : s.max_connections = m
  fresh : ∀ cid, (s.conns cid).isSome → cid < s.next_id
  params_pools : ∀ h, (s.connection_params h).isSome → (s.pools h).isSome
  pools_active : ∀ h, (s.pools h).isSome ↔ (s.active_connections h).isSome
  held_nodup : s.held.Nodup
  held_conns : ∀ cid ∈ s.held, (s.conns cid).isSome
  held_active : ∀ cid ∈ s.held, ∃ l, s.active_connections (hostOf s cid) = some l ∧ cid ∈ l
  queue_nodup : ∀ h q, s.pools h = some q → q.Nodup
  queue_conns : ∀ h q, s.pools h = some q → ∀ cid ∈ q, (s.conns cid).isSome ∧ hostOf s cid = h
  queue_active : ∀ h q, s.pools h = some q →
    ∀ cid ∈ q, ∃ l, s.active_connections h = some l ∧ cid ∈ l
  held_queue : ∀ cid ∈ s.held, ∀ h q, s.pools h = some q → cid ∉ q
  sum_le : ∀ h, outstanding s h + idleLen s h ≤ m

theorem PoolInv.init (m t i : Nat) : PoolInv m (initState m t i) := by
  refine ⟨rfl, ?_, ?_, ?_, ?_, ?_, ?_, ?_, ?_, ?_, ?_, ?_⟩
  · intro cid hc
    simp [initState] at hc
  · intro h hp
    simp [initState] at hp
  · intro h
    simp [initState]
  · exact List.nodup_nil
  · intro cid hc
    simp [initState] at hc
  · intro cid hc
    simp [initState] at hc
  · intro h q hq
    simp [initState] at hq
  · intro h q hq
    simp [initState] at hq
  · intro h q hq
    simp [initState] at hq
  · intro cid hc
    simp [initState] at hc
  · intro h
    simp [outstanding, heldOf, idleLen, initState]

theorem outstanding_append (s s' : PoolState) (cid : Nat) (h2 : String)
    (hheld : s'.held = s.held ++ [cid])
    (hhost : ∀ x ∈ s.held, hostOf s' x = hostOf s x) :
    outstanding s' h2 =
      outstanding s h2 + (if hostOf s' cid = h2 then 1 else 0) := by
  unfold outstanding heldOf
  rw [hheld, List.filter_append,
    List.filter_congr (fun x hx => by rw [hhost x hx])]
  by_cases hc : hostOf s' cid = h2 <;> simp [hc]

theorem outstanding_erase_exact (s s' : PoolState) (cid : Nat)
    (hheld : s'.held = s.held.erase cid)
    (hhost : ∀ x, hostOf s' x = hostOf s x)
    (hmem : cid ∈ s.held) :
    outstanding s' (hostOf s cid) + 1 = outstanding s (hostOf s cid) := by
  unfold outstanding heldOf
  rw [hheld, List.filter_congr (fun x _ => by rw [hhost x])]
  exact (length_filter_erase hmem (by simp)).symm

theorem outstanding_erase_le (s s' : PoolState) (cid : Nat) (h2 : String)
    (hheld : s'.held = s.held.erase cid)
    (hhost : ∀ x, hostOf s' x = hostOf s x) :
    outstanding s' h2 ≤ outstanding s h2 := by
  unfold outstanding heldOf
  rw [hheld, List.filter_congr (fun x _ => by rw [hhost x])]
  exact ((List.erase_sublist cid s.held).filter _).length_le

/-- Checked-out connections of one host are bounded by the length of the
host's active list. -/
theorem outstanding_le_active (m : Nat) (s : PoolState) (h : String) (l : List Nat)
    (hInv : PoolInv m s) (hl : s.active_connections h = some l) :
    outstanding s h ≤ l.length := by
  have hsub : heldOf s h ⊆ l := by
    intro cid hcid
    have hmem := List.mem_filter.mp hcid
    have hhost : hostOf s cid = h := by simpa using hmem.2
    obtain ⟨l2, hl2, hcl2⟩ := hInv.held_active cid hmem.1
    rw [hhost, hl] at hl2
    cases hl2
    exact hcl2
  exact ((hInv.held_nodup.filter _).subperm hsub).length_le

theorem hostOf_fset (s s' : PoolState) (cid : Nat) (c c' : PooledConnection)
    (hc : s.conns cid = some c)
    (hconns : s'.conns = fset s.conns cid c')
    (hhost : c'.host_id = c.host_id) :
    ∀ x, hostOf s' x = hostOf s x := by
  intro x
  unfold hostOf
  rw [hconns]
  by_cases hx : x = cid
  · subst hx
    rw [fset_self, hc]
    dsimp only
    exact hhost
  · rw [fset_ne s.conns c' hx]

theorem hostOf_fset_new (s s' : PoolState) (k : Nat) (c' : PooledConnection)
    (hconns : s'.conns = fset s.conns k c') :
    ∀ x, x ≠ k → hostOf s' x = hostOf s x := by
  intro x hx
  unfold hostOf
  rw [hconns, fset_ne s.conns c' hx]

theorem nodup_append_singleton {l : List Nat} {a : Nat}
    (hnd : l.Nodup) (ha : a ∉ l) : (l ++ [a]).Nodup := by
  refine List.nodup_append.mpr ⟨hnd, List.nodup_singleton a, ?_⟩
  intro x hx hx1
  rw [List.mem_singleton] at hx1
  exact ha (hx1 ▸ hx)

/-- Invariant preservation for the two acquire branches that return a
popped queue element (validation success, or reconnect success): the
element moves from the front of its queue to the held list and only its
non-host fields change. -/
theorem PoolInv.pop_return (m : Nat) (s s' : PoolState) (h : String) (cid : Nat)
    (rest : List Nat) (c c' : PooledConnection)
    (hInv : PoolInv m s)
    (hq : s.pools h = some (cid :: rest))
    (hc : s.conns cid = some c)
    (hhost : c'.host_id = c.host_id)
    (e1 : s'.connection_params = s.connection_params)
    (e2 : s'.pools = fset s.pools h rest)
    (e3 : s'.active_connections = s.active_connections)
    (e4 : s'.conns = fset s.conns cid c')
    (e5 : s'.max_connections = s.max_connections)
    (e6 : s'.next_id = s.next_id)
    (e7 : s'.held = s.held ++ [cid]) :
    PoolInv m s' := by
  have hqc := hInv.queue_conns h _ hq
  have hchost : hostOf s cid = h := (hqc cid (List.mem_cons_self _ _)).2
  have hcidnotheld : cid ∉ s.held := fun hmem =>
    hInv.held_queue cid hmem h _ hq (List.mem_cons_self _ _)
  have hqnd := hInv.queue_nodup h _ hq
  have hho : ∀ x, hostOf s' x = hostOf s x := hostOf_fset s s' cid c c' hc e4 hhost
  have hconnsome : ∀ x, (s.conns x).isSome → (s'.conns x).isSome := by
    intro x hx
    rw [e4]
    by_cases hxc : x = cid
    · subst hxc
      rw [fset_self]
      rfl
    · rw [fset_ne s.conns c' hxc]
      exact hx
  refine ⟨e5.trans hInv.maxc, ?_, ?_, ?_, ?_, ?_, ?_, ?_, ?_, ?_, ?_, ?_⟩
  · intro x hx
    rw [e4] at hx
    rw [e6]
    by_cases hxc : x = cid
    · subst hxc
      exact hInv.fresh x (by rw [hc]; rfl)
    · rw [fset_ne s.conns c' hxc] at hx
      exact hInv.fresh x hx
  · intro h2 hp
    rw [e1] at hp
    rw [e2]
    by_cases hh : h2 = h
    · subst hh
      rw [fset_self]
      rfl
    · rw [fset_ne s.pools rest hh]
      exact hInv.params_pools h2 hp
  · intro h2
    rw [e2, e3]
    by_cases hh : h2 = h
    · subst hh
      rw [fset_self]
      have := (hInv.pools_active h2).mp (by rw [hq]; rfl)
      simpa using this
    · rw [fset_ne s.pools rest hh]
      exact hInv.pools_active h2
  · rw [e7]
    exact nodup_append_singleton hInv.held_nodup hcidnotheld
  · intro x hx
    rw [e7] at hx
    rcases List.mem_append.mp hx with hx | hx
    · exact hconnsome x (hInv.held_conns x hx)
    · rw [List.mem_singleton] at hx
      subst hx
      exact hconnsome x (by rw [hc]; rfl)
  · intro x hx
    rw [e7] at hx
    rw [hho x, e3]
    rcases List.mem_append.mp hx with hx | hx
    · exact hInv.held_active x hx
    · rw [List.mem_singleton] at hx
      subst hx
      rw [hchost]
      exact hInv.queue_active h _ hq x (List.mem_cons_self _ _)
  · intro h2 q2 hq2
    rw [e2] at hq2
    by_cases hh : h2 = h
    · subst hh
      rw [fset_self] at hq2
      cases hq2
      exact hqnd.of_cons
    · rw [fset_ne s.pools rest hh] at hq2
      exact hInv.queue_nodup h2 q2 hq2
  · intro h2 q2 hq2 x hx
    rw [e2] at hq2
    by_cases hh : h2 = h
    · subst hh
      rw [fset_self] at hq2
      cases hq2
      obtain ⟨hs, hh⟩ := hqc x (List.mem_cons_of_mem _ hx)
      exact ⟨hconnsome x hs, by rw [hho x]; exact hh⟩
    · rw [fset_ne s.pools rest hh] at hq2
      obtain ⟨hs, hh2⟩ := hInv.queue_conns h2 q2 hq2 x hx
      exact ⟨hconnsome x hs, by rw [hho x]; exact hh2⟩
  · intro h2 q2 hq2 x hx
    rw [e2] at hq2
    rw [e3]
    by_cases hh : h2 = h
    · subst hh
      rw [fset_self] at hq2
      cases hq2
      exact hInv.queue_active _ _ hq x (List.mem_cons_of_mem _ hx)
    · rw [fset_ne s.pools rest hh] at hq2
      exact hInv.queue_active h2 q2 hq2 x hx
  · intro x hx h2 q2 hq2
    rw [e7] at hx
    rw [e2] at hq2
    rcases List.mem_append.mp hx with hx | hx
    · by_cases hh : h2 = h
      · subst hh
        rw [fset_self] at hq2
        cases hq2
        exact fun hmem =>
          hInv.held_queue x hx _ _ hq (List.mem_cons_of_mem _ hmem)
      · rw [fset_ne s.pools rest hh] at hq2
        exact hInv.held_queue x hx h2 q2 hq2
    · rw [List.mem_singleton] at hx
      subst hx
      by_cases hh : h2 = h
      · subst hh
        rw [fset_self] at hq2
        cases hq2
        exact (List.nodup_cons.mp hqnd).1
      · rw [fset_ne s.pools rest hh] at hq2
        intro hmem
        have hx2 := (hInv.queue_conns h2 q2 hq2 x hmem).2
        rw [hchost] at hx2
        exact hh hx2.symm
  · intro h2
    have hout := outstanding_append s s' cid h2 e7 (fun x _ => hho x)
    rw [hout, hho cid, hchost]
    unfold idleLen
    rw [e2]
    by_cases hh : h2 = h
    · subst hh
      have hsum := hInv.sum_le h2
      rw [if_pos rfl, fset_self]
      unfold idleLen at hsum
      rw [hq] at hsum
      simp only [Option.getD_some, List.length_cons] at hsum ⊢
      omega
    · rw [if_neg (fun he => hh he.symm), fset_ne s.pools rest hh]
      have hsum := hInv.sum_le h2
      unfold idleLen at hsum
      omega

/-- Invariant preservation for the `_create_new_connection` success path
of acquire: a fresh connection is allocated, appended to the host's
active list and handed to the caller; `q'` is the host's queue afterwards
(the remainder of a popped queue, or the still-empty queue), a sublist of
the queue `q0` before the call. -/
theorem PoolInv.create_path (m : Nat) (s s' : PoolState) (h : String)
    (q0 q' l : List Nat) (cNew : PooledConnection)
    (hInv : PoolInv m s)
    (hq0 : s.pools h = some q0)
    (hsub : List.Sublist q' q0)
    (hl : s.active_connections h = some l)
    (hsum : outstanding s h + q'.length < m)
    (hcnew : cNew.host_id = h)
    (e1 : s'.connection_params = s.connection_params)
    (e2 : s'.pools = fset s.pools h q')
    (e3 : s'.active_connections = fset s.active_connections h (l ++ [s.next_id]))
    (e4 : s'.conns = fset s.conns s.next_id cNew)
    (e5 : s'.max_connections = s.max_connections)
    (e6 : s'.next_id = s.next_id + 1)
    (e7 : s'.held = s.held ++ [s.next_id]) :
    PoolInv m s' := by
  have hfresh : ∀ x, (s.conns x).isSome → x ≠ s.next_id := by
    intro x hx he
    exact absurd (hInv.fresh x hx) (by rw [he]; exact Nat.lt_irrefl _)
  have hho : ∀ x, x ≠ s.next_id → hostOf s' x = hostOf s x :=
    hostOf_fset_new s s' s.next_id cNew e4
  have hhonew : hostOf s' s.next_id = h := by
    unfold hostOf
    rw [e4, fset_self]
    dsimp only
    exact hcnew
  have hconnsome : ∀ x, (s.conns x).isSome → (s'.conns x).isSome := by
    intro x hx
    rw [e4, fset_ne s.conns cNew (hfresh x hx)]
    exact hx
  have hnidheld : s.next_id ∉ s.held := fun hmem =>
    hfresh _ (hInv.held_conns _ hmem) rfl
  refine ⟨e5.trans hInv.maxc, ?_, ?_, ?_, ?_, ?_, ?_, ?_, ?_, ?_, ?_, ?_⟩
  · intro x hx
    rw [e4] at hx
    rw [e6]
    by_cases hxc : x = s.next_id
    · subst hxc
      exact Nat.lt_succ_self _
    · rw [fset_ne s.conns cNew hxc] at hx
      exact Nat.lt_succ_of_lt (hInv.fresh x hx)
  · intro h2 hp
    rw [e1] at hp
    rw [e2]
    by_cases hh : h2 = h
    · subst hh
      rw [fset_self]
      rfl
    · rw [fset_ne s.pools q' hh]
      exact hInv.params_pools h2 hp
  · intro h2
    rw [e2, e3]
    by_cases hh : h2 = h
    · subst hh
      rw [fset_self, fset_self]
      simp
    · rw [fset_ne s.pools q' hh, fset_ne s.active_connections _ hh]
      exact hInv.pools_active h2
  · rw [e7]
    exact nodup_append_singleton hInv.held_nodup hnidheld
  · intro x hx
    rw [e7] at hx
    rcases List.mem_append.mp hx with hx | hx
    · exact hconnsome x (hInv.held_conns x hx)
    · rw [List.mem_singleton] at hx
      subst hx
      rw [e4, fset_self]
      rfl
  · intro x hx
    rw [e7] at hx
    rw [e3]
    rcases List.mem_append.mp hx with hx | hx
    · have hxne : x ≠ s.next_id := hfresh x (hInv.held_conns x hx)
      rw [hho x hxne]
      obtain ⟨l2, hl2, hmem2⟩ := hInv.held_active x hx
      by_cases hh : hostOf s x = h
      · rw [hh]
        rw [hh, hl] at hl2
        cases hl2
        rw [fset_self]
        exact ⟨_, rfl, List.mem_append_left _ hmem2⟩
      · rw [fset_ne s.active_connections _ hh]
        exact ⟨l2, hl2, hmem2⟩
    · rw [List.mem_singleton] at hx
      subst hx
      rw [hhonew, fset_self]
      exact ⟨_, rfl, List.mem_append_right _ (List.mem_singleton_self _)⟩
  · intro h2 q2 hq2
    rw [e2] at hq2
    by_cases hh : h2 = h
    · subst hh
      rw [fset_self] at hq2
      cases hq2
      exact (hInv.queue_nodup _ _ hq0).sublist hsub
    · rw [fset_ne s.pools q' hh] at hq2
      exact hInv.queue_nodup h2 q2 hq2
  · intro h2 q2 hq2 x hx
    rw [e2] at hq2
    by_cases hh : h2 = h
    · subst hh
      rw [fset_self] at hq2
      cases hq2
      obtain ⟨hs, hh2⟩ := hInv.queue_conns _ _ hq0 x (hsub.subset hx)
      exact ⟨hconnsome x hs, by rw [hho x (hfresh x hs)]; exact hh2⟩
    · rw [fset_ne s.pools q' hh] at hq2
      obtain ⟨hs, hh2⟩ := hInv.queue_conns h2 q2 hq2 x hx
      exact ⟨hconnsome x hs, by rw [hho x (hfresh x hs)]; exact hh2⟩
  · intro h2 q2 hq2 x hx
    rw [e2] at hq2
    rw [e3]
    by_cases hh : h2 = h
    · subst hh
      rw [fset_self] at hq2
      cases hq2
      obtain ⟨l2, hl2, hmem2⟩ := hInv.queue_active _ _ hq0 x (hsub.subset hx)
      rw [hl] at hl2
      cases hl2
      rw [fset_self]
      exact ⟨_, rfl, List.mem_append_left _ hmem2⟩
    · rw [fset_ne s.pools q' hh] at hq2
      rw [fset_ne s.active_connections _ hh]
      exact hInv.queue_active h2 q2 hq2 x hx
  · intro x hx h2 q2 hq2
    rw [e7] at hx
    rw [e2] at hq2
    rcases List.mem_append.mp hx with hx | hx
    · by_cases hh : h2 = h
      · subst hh
        rw [fset_self] at hq2
        cases hq2
        exact fun hmem => hInv.held_queue x hx _ _ hq0 (hsub.subset hmem)
      · rw [fset_ne s.pools q' hh] at hq2
        exact hInv.held_queue x hx h2 q2 hq2
    · rw [List.mem_singleton] at hx
      subst hx
      by_cases hh : h2 = h
      · subst hh
        rw [fset_self] at hq2
        cases hq2
        intro hmem
        exact hfresh _ (hInv.queue_conns _ _ hq0 _ (hsub.subset hmem)).1 rfl
      · rw [fset_ne s.pools q' hh] at hq2
        intro hmem
        exact hfresh _ (hInv.queue_conns h2 q2 hq2 _ hmem).1 rfl
  · intro h2
    have hout := outstanding_append s s' s.next_id h2 e7
      (fun x hx => hho x (hfresh x (hInv.held_conns x hx)))
    rw [hout, hhonew]
    unfold idleLen
    rw [e2]
    by_cases hh : h2 = h
    · subst hh
      rw [if_pos rfl, fset_self]
      simp only [Option.getD_some]
      omega
    · rw [if_neg (fun he => hh he.symm), fset_ne s.pools q' hh]
      have hsum2 := hInv.sum_le h2
      unfold idleLen at hsum2
      omega

/-- Invariant preservation when acquire pops the queue head but returns no
pooled connection (the reconnect failed and `_create_new_connection`
returned an error): only the queue shrinks (and the ghost creation counter
may move). -/
theorem PoolInv.queue_pop (m : Nat) (s s' : PoolState) (h : String) (cid : Nat)
    (rest : List Nat)
    (hInv : PoolInv m s)
    (hq : s.pools h = some (cid :: rest))
    (e1 : s'.connection_params = s.connection_params)
    (e2 : s'.pools = fset s.pools h rest)
    (e3 : s'.active_connections = s.active_connections)
    (e4 : s'.conns = s.conns)
    (e5 : s'.max_connections = s.max_connections)
    (e6 : s'.next_id = s.next_id)
    (e7 : s'.held = s.held) :
    PoolInv m s' := by
  have hho : ∀ x, hostOf s' x = hostOf s x := by
    intro x
    unfold hostOf
    rw [e4]
  refine ⟨e5.trans hInv.maxc, ?_, ?_, ?_, ?_, ?_, ?_, ?_, ?_, ?_, ?_, ?_⟩
  · intro x hx
    rw [e4] at hx
    rw [e6]
    exact hInv.fresh x hx
  · intro h2 hp
    rw [e1] at hp
    rw [e2]
    by_cases hh : h2 = h
    · subst hh
      rw [fset_self]
      rfl
    · rw [fset_ne s.pools rest hh]
      exact hInv.params_pools h2 hp
  · intro h2
    rw [e2, e3]
    by_cases hh : h2 = h
    · subst hh
      rw [fset_self]
      have := (hInv.pools_active h2).mp (by rw [hq]; rfl)
      simpa using this
    · rw [fset_ne s.pools rest hh]
      exact hInv.pools_active h2
  · rw [e7]
    exact hInv.held_nodup
  · intro x hx
    rw [e7] at hx
    rw [e4]
    exact hInv.held_conns x hx
  · intro x hx
    rw [e7] at hx
    rw [hho x, e3]
    exact hInv.held_active x hx
  · intro h2 q2 hq2
    rw [e2] at hq2
    by_cases hh : h2 = h
    · subst hh
      rw [fset_self] at hq2
      cases hq2
      exact (hInv.queue_nodup _ _ hq).of_cons
    · rw [fset_ne s.pools rest hh] at hq2
      exact hInv.queue_nodup h2 q2 hq2
  · intro h2 q2 hq2 x hx
    rw [e2] at hq2
    rw [e4]
    by_cases hh : h2 = h
    · subst hh
      rw [fset_self] at hq2
      cases hq2
      obtain ⟨hs, hh2⟩ := hInv.queue_conns _ _ hq x (List.mem_cons_of_mem _ hx)
      exact ⟨hs, by rw [hho x]; exact hh2⟩
    · rw [fset_ne s.pools rest hh] at hq2
      obtain ⟨hs, hh2⟩ := hInv.queue_conns h2 q2 hq2 x hx
      exact ⟨hs, by rw [hho x]; exact hh2⟩
  · intro h2 q2 hq2 x hx
    rw [e2] at hq2
    rw [e3]
    by_cases hh : h2 = h
    · subst hh
      rw [fset_self] at hq2
      cases hq2
      exact hInv.queue_active _ _ hq x (List.mem_cons_of_mem _ hx)
    · rw [fset_ne s.pools rest hh] at hq2
      exact hInv.queue_active h2 q2 hq2 x hx
  · intro x hx h2 q2 hq2
    rw [e7] at hx
    rw [e2] at hq2
    by_cases hh : h2 = h
    · subst hh
      rw [fset_self] at hq2
      cases hq2
      exact fun hmem => hInv.held_queue x hx _ _ hq (List.mem_cons_of_mem _ hmem)
    · rw [fset_ne s.pools rest hh] at hq2
      exact hInv.held_queue x hx h2 q2 hq2
  · intro h2
    rw [outstanding_congr s s' h2 e7 (fun x _ => hho x)]
    unfold idleLen
    rw [e2]
    by_cases hh : h2 = h
    · subst hh
      rw [fset_self]
      have hsum := hInv.sum_le h2
      unfold idleLen at hsum
      rw [hq] at hsum
      simp only [Option.getD_some, List.length_cons] at hsum ⊢
      omega
    · rw [fset_ne s.pools rest hh]
      have hsum := hInv.sum_le h2
      unfold idleLen at hsum
      omega

/-- Invariant preservation for a release that closes the connection
(validation failure, or full queue): the connection leaves the held list
and its host's active list; no queue changes. -/
theorem PoolInv.release_close (m : Nat) (s s' : PoolState) (cid : Nat)
    (c c' : PooledConnection) (l : List Nat)
    (hInv : PoolInv m s)
    (hc : s.conns cid = some c)
    (hheld : cid ∈ s.held)
    (hhost : c'.host_id = c.host_id)
    (hl : s.active_connections c.host_id = some l)
    (e1 : s'.connection_params = s.connection_params)
    (e2 : s'.pools = s.pools)
    (e3 : s'.active_connections = fset s.active_connections c.host_id (l.erase cid))
    (e4 : s'.conns = fset s.conns cid c')
    (e5 : s'.max_connections = s.max_connections)
    (e6 : s'.next_id = s.next_id)
    (e7 : s'.held = s.held.erase cid) :
    PoolInv m s' := by
  have hcidhost : hostOf s cid = c.host_id := hostOf_eq s hc
  have hho : ∀ x, hostOf s' x = hostOf s x := hostOf_fset s s' cid c c' hc e4 hhost
  have hconnsome : ∀ x, (s.conns x).isSome → (s'.conns x).isSome := by
    intro x hx
    rw [e4]
    by_cases hxc : x = cid
    · subst hxc
      rw [fset_self]
      rfl
    · rw [fset_ne s.conns c' hxc]
      exact hx
  have hpoolshost : (s.pools c.host_id).isSome := by
    obtain ⟨l2, hl2, -⟩ := hInv.held_active cid hheld
    rw [hcidhost] at hl2
    exact (hInv.pools_active c.host_id).mpr (by rw [hl2]; rfl)
  refine ⟨e5.trans hInv.maxc, ?_, ?_, ?_, ?_, ?_, ?_, ?_, ?_, ?_, ?_, ?_⟩
  · intro x hx
    rw [e4] at hx
    rw [e6]
    by_cases hxc : x = cid
    · subst hxc
      exact hInv.fresh x (by rw [hc]; rfl)
    · rw [fset_ne s.conns c' hxc] at hx
      exact hInv.fresh x hx
  · intro h2 hp
    rw [e1] at hp
    rw [e2]
    exact hInv.params_pools h2 hp
  · intro h2
    rw [e2, e3]
    by_cases hh : h2 = c.host_id
    · subst hh
      rw [fset_self]
      simp only [Option.isSome_some, iff_true]
      exact hpoolshost
    · rw [fset_ne s.active_connections _ hh]
      exact hInv.pools_active h2
  · rw [e7]
    exact hInv.held_nodup.erase cid
  · intro x hx
    rw [e7] at hx
    exact hconnsome x (hInv.held_conns x ((List.erase_sublist cid s.held).subset hx))
  · intro x hx
    rw [e7] at hx
    obtain ⟨hxne, hxmem⟩ := hInv.held_nodup.mem_erase_iff.mp hx
    rw [hho x, e3]
    obtain ⟨l2, hl2, hmem2⟩ := hInv.held_active x hxmem
    by_cases hh : hostOf s x = c.host_id
    · rw [hh]
      rw [hh, hl] at hl2
      cases hl2
      rw [fset_self]
      exact ⟨_, rfl, (List.mem_erase_of_ne hxne).mpr hmem2⟩
    · rw [fset_ne s.active_connections _ hh]
      exact ⟨l2, hl2, hmem2⟩
  · intro h2 q2 hq2
    rw [e2] at hq2
    exact hInv.queue_nodup h2 q2 hq2
  · intro h2 q2 hq2 x hx
    rw [e2] at hq2
    obtain ⟨hs, hh2⟩ := hInv.queue_conns h2 q2 hq2 x hx
    exact ⟨hconnsome x hs, by rw [hho x]; exact hh2⟩
  · intro h2 q2 hq2 x hx
    rw [e2] at hq2
    rw [e3]
    have hxne : x ≠ cid := fun he =>
      hInv.held_queue cid hheld h2 q2 hq2 (he ▸ hx)
    obtain ⟨l2, hl2, hmem2⟩ := hInv.queue_active h2 q2 hq2 x hx
    by_cases hh : h2 = c.host_id
    · subst hh
      rw [hl] at hl2
      cases hl2
      rw [fset_self]
      exact ⟨_, rfl, (List.mem_erase_of_ne hxne).mpr hmem2⟩
    · rw [fset_ne s.active_connections _ hh]
      exact ⟨l2, hl2, hmem2⟩
  · intro x hx h2 q2 hq2
    rw [e7] at hx
    rw [e2] at hq2
    exact hInv.held_queue x ((List.erase_sublist cid s.held).subset hx) h2 q2 hq2
  · intro h2
    have hle := outstanding_erase_le s s' cid h2 e7 hho
    unfold idleLen
    rw [e2]
    have hsum := hInv.sum_le h2
    unfold idleLen at hsum
    omega

/-- Invariant preservation for a release that returns the connection to
its host's queue. -/
theorem PoolInv.release_enqueue_inv (m : Nat) (s s' : PoolState) (cid : Nat)
    (c c' : PooledConnection) (q : List Nat)
    (hInv : PoolInv m s)
    (hc : s.conns cid = some c)
    (hheld : cid ∈ s.held)
    (hhost : c'.host_id = c.host_id)
    (hq : s.pools c.host_id = some q)
    (e1 : s'.connection_params = s.connection_params)
    (e2 : s'.pools = fset s.pools c.host_id (q ++ [cid]))
    (e3 : s'.active_connections = s.active_connections)
    (e4 : s'.conns = fset s.conns cid c')
    (e5 : s'.max_connections = s.max_connections)
    (e6 : s'.next_id = s.next_id)
    (e7 : s'.held = s.held.erase cid) :
    PoolInv m s' := by
  have hcidhost : hostOf s cid = c.host_id := hostOf_eq s hc
  have hho : ∀ x, hostOf s' x = hostOf s x := hostOf_fset s s' cid c c' hc e4 hhost
  have hcidq : cid ∉ q := hInv.held_queue cid hheld _ _ hq
  have hconnsome : ∀ x, (s.conns x).isSome → (s'.conns x).isSome := by
    intro x hx
    rw [e4]
    by_cases hxc : x = cid
    · subst hxc
      rw [fset_self]
      rfl
    · rw [fset_ne s.conns c' hxc]
      exact hx
  refine ⟨e5.trans hInv.maxc, ?_, ?_, ?_, ?_, ?_, ?_, ?_, ?_, ?_, ?_, ?_⟩
  · intro x hx
    rw [e4] at hx
    rw [e6]
    by_cases hxc : x = cid
    · subst hxc
      exact hInv.fresh x (by rw [hc]; rfl)
    · rw [fset_ne s.conns c' hxc] at hx
      exact hInv.fresh x hx
  · intro h2 hp
    rw [e1] at hp
    rw [e2]
    by_cases hh : h2 = c.host_id
    · subst hh
      rw [fset_self]
      rfl
    · rw [fset_ne s.pools _ hh]
      exact hInv.params_pools h2 hp
  · intro h2
    rw [e2, e3]
    by_cases hh : h2 = c.host_id
    · subst hh
      rw [fset_self]
      simp only [Option.isSome_some, true_iff]
      exact (hInv.pools_active c.host_id).mp (by rw [hq]; rfl)
    · rw [fset_ne s.pools _ hh]
      exact hInv.pools_active h2
  · rw [e7]
    exact hInv.held_nodup.erase cid
  · intro x hx
    rw [e7] at hx
    exact hconnsome x (hInv.held_conns x ((List.erase_sublist cid s.held).subset hx))
  · intro x hx
    rw [e7] at hx
    rw [hho x, e3]
    exact hInv.held_active x ((List.erase_sublist cid s.held).subset hx)
  · intro h2 q2 hq2
    rw [e2] at hq2
    by_cases hh : h2 = c.host_id
    · subst hh
      rw [fset_self] at hq2
      cases hq2
      exact nodup_append_singleton (hInv.queue_nodup _ _ hq) hcidq
    · rw [fset_ne s.pools _ hh] at hq2
      exact hInv.queue_nodup h2 q2 hq2
  · intro h2 q2 hq2 x hx
    rw [e2] at hq2
    by_cases hh : h2 = c.host_id
    · subst hh
      rw [fset_self] at hq2
      cases hq2
      rcases List.mem_append.mp hx with hx | hx
      · obtain ⟨hs, hh2⟩ := hInv.queue_conns _ _ hq x hx
        exact ⟨hconnsome x hs, by rw [hho x]; exact hh2⟩
      · rw [List.mem_singleton] at hx
        subst hx
        exact ⟨hconnsome x (by rw [hc]; rfl), by rw [hho x]; exact hcidhost⟩
    · rw [fset_ne s.pools _ hh] at hq2
      obtain ⟨hs, hh2⟩ := hInv.queue_conns h2 q2 hq2 x hx
      exact ⟨hconnsome x hs, by rw [hho x]; exact hh2⟩
  · intro h2 q2 hq2 x hx
    rw [e2] at hq2
    rw [e3]
    by_cases hh : h2 = c.host_id
    · subst hh
      rw [fset_self] at hq2
      cases hq2
      rcases List.mem_append.mp hx with hx | hx
      · exact hInv.queue_active _ _ hq x hx
      · rw [List.mem_singleton] at hx
        subst hx
        have := hInv.held_active x hheld
        rw [hcidhost] at this
        exact this
    · rw [fset_ne s.pools _ hh] at hq2
      exact hInv.queue_active h2 q2 hq2 x hx
  · intro x hx h2 q2 hq2
    rw [e7] at hx
    rw [e2] at hq2
    obtain ⟨hxne, hxmem⟩ := hInv.held_nodup.mem_erase_iff.mp hx
    by_cases hh : h2 = c.host_id
    · subst hh
      rw [fset_self] at hq2
      cases hq2
      intro hmem
      rcases List.mem_append.mp hmem with hmem | hmem
      · exact hInv.held_queue x hxmem _ _ hq hmem
      · rw [List.mem_singleton] at hmem
        exact hxne hmem
    · rw [fset_ne s.pools _ hh] at hq2
      exact hInv.held_queue x hxmem h2 q2 hq2
  · intro h2
    unfold idleLen
    rw [e2]
    by_cases hh : h2 = c.host_id
    · subst hh
      rw [fset_self]
      have hex := outstanding_erase_exact s s' cid e7 hho hheld
      rw [hcidhost] at hex
      have hsum := hInv.sum_le c.host_id
      unfold idleLen at hsum
      rw [hq] at hsum
      simp only [Option.getD_some, List.length_append, List.length_singleton] at hsum ⊢
      omega
    · rw [fset_ne s.pools _ hh]
      have hle := outstanding_erase_le s s' cid h2 e7 hho
      have hsum := hInv.sum_le h2
      unfold idleLen at hsum
      omega

/-! ### Branch equations for `get_connection` -/

theorem get_connection_reconnect (s : PoolState) (h : String) (now : Nat) (env : Env)
    (p : HostParams) (cid : Nat) (rest : List Nat) (c : PooledConnection)
    (hp : s.connection_params h = some p)
    (hq : s.pools h = some (cid :: rest))
    (hc : s.conns cid = some c)
    (hdead : (!c.closed && env.alive.contains cid) = false)
    (hrec : env.reconnectOk.contains cid = true) :
    get_connection s h now env = ((some cid, none),
      { s with pools := fset s.pools h rest,
               conns := fset s.conns cid
                 { c with closed := false, last_used := now, in_use := true } }) := by
  unfold get_connection updConn PoolState.is_connected
  rw [hp, hq]
  dsimp only
  rw [hc]
  simp only [hdead, hrec, if_true]

theorem get_connection_pop_noconnect (s : PoolState) (h : String) (now : Nat) (env : Env)
    (p : HostParams) (cid : Nat) (rest : List Nat) (c : PooledConnection)
    (hp : s.connection_params h = some p)
    (hq : s.pools h = some (cid :: rest))
    (hc : s.conns cid = some c)
    (hdead : (!c.closed && env.alive.contains cid) = false)
    (hrec : env.reconnectOk.contains cid = false)
    (hok : env.connectOk = false) :
    get_connection s h now env = ((none, some (.connectError env.connectErrMsg)),
      { s with pools := fset s.pools h rest }) := by
  unfold get_connection create_new_connection PoolState.is_connected
  rw [hp, hq]
  dsimp only
  rw [hc]
  simp only [hdead, hrec, hok, Bool.false_eq_true, if_false]
  exact if_pos trivial

theorem get_connection_pop_notconn (s : PoolState) (h : String) (now : Nat) (env : Env)
    (p : HostParams) (cid : Nat) (rest : List Nat) (c : PooledConnection)
    (hp : s.connection_params h = some p)
    (hq : s.pools h = some (cid :: rest))
    (hc : s.conns cid = some c)
    (hdead : (!c.closed && env.alive.contains cid) = false)
    (hrec : env.reconnectOk.contains cid = false)
    (hok : env.connectOk = true) (hnew : env.newIsConnected = false) :
    get_connection s h now env = ((none, some (.notConnected p.host)),
      { s with pools := fset s.pools h rest, created := s.created + 1 }) := by
  unfold get_connection create_new_connection PoolState.is_connected
  rw [hp, hq]
  dsimp only
  rw [hc]
  simp only [hdead, hrec, hok, hnew, Bool.false_eq_true, if_false, if_true]
  rw [hp]
  rfl

theorem get_connection_pop_create (s : PoolState) (h : String) (now : Nat) (env : Env)
    (p : HostParams) (cid : Nat) (rest l : List Nat) (c : PooledConnection)
    (hp : s.connection_params h = some p)
    (hq : s.pools h = some (cid :: rest))
    (hc : s.conns cid = some c)
    (hdead : (!c.closed && env.alive.contains cid) = false)
    (hrec : env.reconnectOk.contains cid = false)
    (hok : env.connectOk = true) (hnew : env.newIsConnected = true)
    (hl : s.active_connections h = some l) :
    get_connection s h now env = ((some s.next_id, none),
      { s with pools := fset s.pools h rest,
               conns := fset s.conns s.next_id
                 { host_id := h, last_used := now, in_use := true, closed := false },
               next_id := s.next_id + 1, created := s.created + 1,
               active_connections := fset s.active_connections h (l ++ [s.next_id]) }) := by
  unfold get_connection create_new_connection PoolState.is_connected
  rw [hp, hq]
  dsimp only
  rw [hc]
  simp only [hdead, hrec, hok, hnew, Bool.false_eq_true, if_false, if_true]
  rw [hl]

theorem get_connection_empty_noconnect (s : PoolState) (h : String) (now : Nat) (env : Env)
    (p : HostParams)
    (hp : s.connection_params h = some p)
    (hq : s.pools h = some [])
    (hcap : activeCount s h < s.max_connections)
    (hok : env.connectOk = false) :
    get_connection s h now env = ((none, some (.connectError env.connectErrMsg)), s) := by
  unfold get_connection create_new_connection
  rw [hp, hq]
  dsimp only
  simp only [hcap, if_true, hok, Bool.false_eq_true, if_false]

theorem get_connection_empty_notconn (s : PoolState) (h : String) (now : Nat) (env : Env)
    (p : HostParams)
    (hp : s.connection_params h = some p)
    (hq : s.pools h = some [])
    (hcap : activeCount s h < s.max_connections)
    (hok : env.connectOk = true) (hnew : env.newIsConnected = false) :
    get_connection s h now env = ((none, some (.notConnected p.host)),
      { s with created := s.created + 1 }) := by
  unfold get_connection create_new_connection
  rw [hp, hq]
  dsimp only
  simp only [hcap, if_true, hok, hnew, Bool.false_eq_true, if_false]
  rfl

theorem get_connection_saturated (s : PoolState) (h : String) (now : Nat) (env : Env)
    (p : HostParams)
    (hp : s.connection_params h = some p)
    (hq : s.pools h = some [])
    (hcap : ¬ activeCount s h < s.max_connections) :
    get_connection s h now env = ((none, some .timeout), s) := by
  unfold get_connection
  rw [hp, hq]
  dsimp only
  simp only [hcap, if_false]

/-- Invariant transfer between states that agree on every field the
invariant mentions (used for branches that only move the ghost creation
counter or change nothing). -/
theorem PoolInv.congr_fields (m : Nat) (s s' : PoolState)
    (hInv : PoolInv m s)
    (e1 : s'.connection_params = s.connection_params)
    (e2 : s'.pools = s.pools)
    (e3 : s'.active_connections = s.active_connections)
    (e4 : s'.conns = s.conns)
    (e5 : s'.max_connections = s.max_connections)
    (e6 : s'.next_id = s.next_id)
    (e7 : s'.held = s.held) :
    PoolInv m s' := by
  have hho : ∀ x, hostOf s' x = hostOf s x := by
    intro x
    unfold hostOf
    rw [e4]
  refine ⟨e5.trans hInv.maxc, ?_, ?_, ?_, ?_, ?_, ?_, ?_, ?_, ?_, ?_, ?_⟩
  · intro x hx
    rw [e4] at hx
    rw [e6]
    exact hInv.fresh x hx
  · intro h2 hp
    rw [e1] at hp
    rw [e2]
    exact hInv.params_pools h2 hp
  · intro h2
    rw [e2, e3]
    exact hInv.pools_active h2
  · rw [e7]
    exact hInv.held_nodup
  · intro x hx
    rw [e7] at hx
    rw [e4]
    exact hInv.held_conns x hx
  · intro x hx
    rw [e7] at hx
    rw [hho x, e3]
    exact hInv.held_active x hx
  · intro h2 q2 hq2
    rw [e2] at hq2
    exact hInv.queue_nodup h2 q2 hq2
  · intro h2 q2 hq2 x hx
    rw [e2] at hq2
    rw [e4]
    obtain ⟨hs, hh⟩ := hInv.queue_conns h2 q2 hq2 x hx
    exact ⟨hs, by rw [hho x]; exact hh⟩
  · intro h2 q2 hq2 x hx
    rw [e2] at hq2
    rw [e3]
    exact hInv.queue_active h2 q2 hq2 x hx
  · intro x hx h2 q2 hq2
    rw [e7] at hx
    rw [e2] at hq2
    exact hInv.held_queue x hx h2 q2 hq2
  · intro h2
    rw [outstanding_congr s s' h2 e7 (fun x _ => hho x)]
    unfold idleLen
    rw [e2]
    have hsum := hInv.sum_le h2
    unfold idleLen at hsum
    exact hsum

/-- Invariant preservation for re-registration of a known host (only the
stored parameters change). -/
theorem PoolInv.params_set (m : Nat) (s s' : PoolState) (h : String) (p : HostParams)
    (hInv : PoolInv m s)
    (hpool : (s.pools h).isSome)
    (e1 : s'.connection_params = fset s.connection_params h p)
    (e2 : s'.pools = s.pools)
    (e3 : s'.active_connections = s.active_connections)
    (e4 : s'.conns = s.conns)
    (e5 : s'.max_connections = s.max_connections)
    (e6 : s'.next_id = s.next_id)
    (e7 : s'.held = s.held) :
    PoolInv m s' := by
  have base := PoolInv.congr_fields m s
    { s' with connection_params := s.connection_params }
    hInv rfl e2 e3 e4 e5 e6 e7
  refine ⟨base.maxc, base.fresh, ?_, base.pools_active, base.held_nodup, base.held_conns,
    base.held_active, base.queue_nodup, base.queue_conns, base.queue_active,
    base.held_queue, base.sum_le⟩
  intro h2 hp2
  rw [e1] at hp2
  rw [e2]
  by_cases hh : h2 = h
  · subst hh
    exact hpool
  · rw [fset_ne s.connection_params p hh] at hp2
    exact hInv.params_pools h2 hp2

/-- Invariant preservation for the first registration of a host: empty
queue and empty active list are created. -/
theorem PoolInv.register_new (m : Nat) (s s' : PoolState) (h : String) (p : HostParams)
    (hInv : PoolInv m s)
    (hpool : s.pools h = none)
    (e1 : s'.connection_params = fset s.connection_params h p)
    (e2 : s'.pools = fset s.pools h [])
    (e3 : s'.active_connections = fset s.active_connections h [])
    (e4 : s'.conns = s.conns)
    (e5 : s'.max_connections = s.max_connections)
    (e6 : s'.next_id = s.next_id)
    (e7 : s'.held = s.held) :
    PoolInv m s' := by
  have hho : ∀ x, hostOf s' x = hostOf s x := by
    intro x
    unfold hostOf
    rw [e4]
  have hactnone : s.active_connections h = none := by
    have := hInv.pools_active h
    rw [hpool] at this
    rcases hx : s.active_connections h with _ | l
    · rfl
    · rw [hx] at this
      simp at this
  have hnothost : ∀ x ∈ s.held, hostOf s x ≠ h := by
    intro x hx he
    obtain ⟨l2, hl2, -⟩ := hInv.held_active x hx
    rw [he, hactnone] at hl2
    cases hl2
  refine ⟨e5.trans hInv.maxc, ?_, ?_, ?_, ?_, ?_, ?_, ?_, ?_, ?_, ?_, ?_⟩
  · intro x hx
    rw [e4] at hx
    rw [e6]
    exact hInv.fresh x hx
  · intro h2 hp2
    rw [e1] at hp2
    rw [e2]
    by_cases hh : h2 = h
    · subst hh
      rw [fset_self]
      rfl
    · rw [fset_ne s.pools _ hh, fset_ne s.connection_params p hh] at *
      exact hInv.params_pools h2 hp2
  · intro h2
    rw [e2, e3]
    by_cases hh : h2 = h
    · subst hh
      rw [fset_self, fset_self]
    · rw [fset_ne s.pools _ hh, fset_ne s.active_connections _ hh]
      exact hInv.pools_active h2
  · rw [e7]
    exact hInv.held_nodup
  · intro x hx
    rw [e7] at hx
    rw [e4]
    exact hInv.held_conns x hx
  · intro x hx
    rw [e7] at hx
    rw [hho x, e3]
    obtain ⟨l2, hl2, hmem2⟩ := hInv.held_active x hx
    rw [fset_ne s.active_connections _ (hnothost x hx)]
    exact ⟨l2, hl2, hmem2⟩
  · intro h2 q2 hq2
    rw [e2] at hq2
    by_cases hh : h2 = h
    · subst hh
      rw [fset_self] at hq2
      cases hq2
      exact List.nodup_nil
    · rw [fset_ne s.pools _ hh] at hq2
      exact hInv.queue_nodup h2 q2 hq2
  · intro h2 q2 hq2 x hx
    rw [e2] at hq2
    rw [e4]
    by_cases hh : h2 = h
    · subst hh
      rw [fset_self] at hq2
      cases hq2
      cases hx
    · rw [fset_ne s.pools _ hh] at hq2
      obtain ⟨hs, hh2⟩ := hInv.queue_conns h2 q2 hq2 x hx
      exact ⟨hs, by rw [hho x]; exact hh2⟩
  · intro h2 q2 hq2 x hx
    rw [e2] at hq2
    rw [e3]
    by_cases hh : h2 = h
    · subst hh
      rw [fset_self] at hq2
      cases hq2
      cases hx
    · rw [fset_ne s.pools _ hh] at hq2
      rw [fset_ne s.active_connections _ hh]
      exact hInv.queue_active h2 q2 hq2 x hx
  · intro x hx h2 q2 hq2
    rw [e7] at hx
    rw [e2] at hq2
    by_cases hh : h2 = h
    · subst hh
      rw [fset_self] at hq2
      cases hq2
      exact List.not_mem_nil x
    · rw [fset_ne s.pools _ hh] at hq2
      exact hInv.held_queue x hx h2 q2 hq2
  · intro h2
    rw [outstanding_congr s s' h2 e7 (fun x _ => hho x)]
    unfold idleLen
    rw [e2]
    by_cases hh : h2 = h
    · subst hh
      rw [fset_self]
      have hzero : outstanding s h2 = 0 := by
        unfold outstanding heldOf
        rw [List.length_eq_zero]
        refine List.filter_eq_nil_iff.mpr fun x hx => ?_
        simp [hnothost x hx]
      rw [hzero]
      simp
    · rw [fset_ne s.pools _ hh]
      have hsum := hInv.sum_le h2
      unfold idleLen at hsum
      exact hsum

/-- Invariant preservation for `register_host`. -/
theorem PoolInv.register_inv (m : Nat) (s : PoolState) (h : String) (info : HostInfo)
    (hInv : PoolInv m s) : PoolInv m (register_host s h info) := by
  unfold register_host
  dsimp only
  by_cases hpool : (s.pools h).isSome
  · rw [if_pos hpool]
    exact PoolInv.params_set m s _ h _ hInv hpool rfl rfl rfl rfl rfl rfl rfl
  · rw [if_neg hpool]
    have hnone : s.pools h = none := Option.not_isSome_iff_eq_none.mp hpool
    exact PoolInv.register_new m s _ h _ hInv hnone rfl rfl rfl rfl rfl rfl rfl

/-- One operation under the strict caller discipline preserves the
invariant. -/
theorem PoolInv.step (m : Nat) (s : PoolState) (op : Op)
    (hInv : PoolInv m s) (hop : opOkStrict s op = true) :
    PoolInv m (stepOp s op) := by
  cases op with
  | register h info =>
    exact PoolInv.register_inv m s h info hInv
  | cleanup now env =>
    exact absurd hop (by simp [opOkStrict])
  | closeHost h env =>
    exact absurd hop (by simp [opOkStrict])
  | acquire h now env =>
    unfold stepOp
    dsimp only
    cases hp : s.connection_params h with
    | none =>
      have hG : get_connection s h now env = ((none, some (.unknownHost h)), s) := by
        unfold get_connection
        rw [hp]
      rw [hG]
      exact hInv
    | some p =>
      cases hq0 : s.pools h with
      | none =>
        have hG : get_connection s h now env = ((none, some .timeout), s) := by
          unfold get_connection
          rw [hp, hq0]
        rw [hG]
        exact hInv
      | some q =>
        cases q with
        | nil =>
          by_cases hcap : activeCount s h < s.max_connections
          · cases hok : env.connectOk with
            | false =>
              rw [get_connection_empty_noconnect s h now env p hp hq0 hcap hok]
              exact hInv
            | true =>
              cases hnew : env.newIsConnected with
              | false =>
                rw [get_connection_empty_notconn s h now env p hp hq0 hcap hok hnew]
                exact PoolInv.congr_fields m s _ hInv rfl rfl rfl rfl rfl rfl rfl
              | true =>
                have hact : (s.active_connections h).isSome :=
                  (hInv.pools_active h).mp (by rw [hq0]; rfl)
                obtain ⟨l, hl⟩ := Option.isSome_iff_exists.mp hact
                have hcap2 : l.length < s.max_connections := by
                  unfold activeCount at hcap
                  rw [hl] at hcap
                  simpa using hcap
                rw [get_connection_create s h now env p l hp hq0 hl hcap2 hok hnew]
                refine PoolInv.create_path m s _ h [] [] l
                  { host_id := h, last_used := now, in_use := true, closed := false }
                  hInv hq0 (List.Sublist.refl []) hl ?_ rfl rfl ?_ rfl rfl rfl rfl rfl
                · have hle := outstanding_le_active m s h l hInv hl
                  have hm := hInv.maxc
                  simp only [List.length_nil]
                  omega
                · exact (fset_eq_self s.pools h [] hq0).symm
          · rw [get_connection_saturated s h now env p hp hq0 hcap]
            exact hInv
        | cons cid rest =>
          have hqc := hInv.queue_conns h _ hq0 cid (List.mem_cons_self _ _)
          obtain ⟨c, hc⟩ := Option.isSome_iff_exists.mp hqc.1
          cases hB : (!c.closed && env.alive.contains cid) with
          | true =>
            rw [get_connection_pop s h now env p cid rest c hp hq0 hc hB]
            exact PoolInv.pop_return m s _ h cid rest c
              { c with last_used := now, in_use := true }
              hInv hq0 hc rfl rfl rfl rfl rfl rfl rfl rfl
          | false =>
            cases hrec : env.reconnectOk.contains cid with
            | true =>
              rw [get_connection_reconnect s h now env p cid rest c hp hq0 hc hB hrec]
              exact PoolInv.pop_return m s _ h cid rest c
                { c with closed := false, last_used := now, in_use := true }
                hInv hq0 hc rfl rfl rfl rfl rfl rfl rfl rfl
            | false =>
              cases hok : env.connectOk with
              | false =>
                rw [get_connection_pop_noconnect s h now env p cid rest c hp hq0 hc hB hrec hok]
                exact PoolInv.queue_pop m s _ h cid rest hInv hq0 rfl rfl rfl rfl rfl rfl rfl
              | true =>
                cases hnew : env.newIsConnected with
                | false =>
                  rw [get_connection_pop_notconn s h now env p cid rest c hp hq0 hc hB hrec hok hnew]
                  exact PoolInv.queue_pop m s _ h cid rest hInv hq0 rfl rfl rfl rfl rfl rfl rfl
                | true =>
                  have hact : (s.active_connections h).isSome :=
                    (hInv.pools_active h).mp (by rw [hq0]; rfl)
                  obtain ⟨l, hl⟩ := Option.isSome_iff_exists.mp hact
                  rw [get_connection_pop_create s h now env p cid rest l c hp hq0 hc hB hrec hok hnew hl]
                  refine PoolInv.create_path m s _ h (cid :: rest) rest l
                    { host_id := h, last_used := now, in_use := true, closed := false }
                    hInv hq0 (List.sublist_cons_self cid rest) hl ?_ rfl rfl rfl rfl rfl rfl rfl rfl
                  have hsum := hInv.sum_le h
                  unfold idleLen at hsum
                  rw [hq0] at hsum
                  simp only [Option.getD_some, List.length_cons] at hsum
                  omega
  | release cid now env =>
    have hheld : cid ∈ s.held := by simpa [opOkStrict] using hop
    obtain ⟨c, hc⟩ := Option.isSome_iff_exists.mp (hInv.held_conns cid hheld)
    obtain ⟨l, hl, hmem⟩ := hInv.held_active cid hheld
    rw [hostOf_eq s hc] at hl
    have hcont : l.contains cid = true := by simpa using hmem
    unfold stepOp
    dsimp only
    cases hB : s.is_connected env cid with
    | false =>
      have hR : release_connection s cid now env =
          { s with
            active_connections := fset s.active_connections c.host_id (l.erase cid) } := by
        unfold release_connection close_connection
        rw [hc]
        dsimp only
        simp only [hB, Bool.false_eq_true, if_true, if_false]
        rw [hl]
        dsimp only
        rw [hcont]
        simp only [if_true]
      rw [hR]
      exact PoolInv.release_close m s _ cid c c l hInv hc hheld rfl hl
        rfl rfl rfl (fset_eq_self s.conns cid c hc).symm rfl rfl rfl
    | true =>
      have halive : (!c.closed && env.alive.contains cid) = true := by
        unfold PoolState.is_connected at hB
        rw [hc] at hB
        exact hB
      have hqex : (s.pools c.host_id).isSome :=
        (hInv.pools_active c.host_id).mpr (by rw [hl]; rfl)
      obtain ⟨q, hq⟩ := Option.isSome_iff_exists.mp hqex
      by_cases hroom : s.max_connections = 0 ∨ q.length < s.max_connections
      · rw [release_connection_enqueue s cid c now env q hc halive hq hroom]
        exact PoolInv.release_enqueue_inv m s _ cid c
          { c with last_used := now, in_use := false } q
          hInv hc hheld rfl hq rfl rfl rfl rfl rfl rfl rfl
      · have hR : release_connection s cid now env =
            { s with
              conns := fset s.conns cid ({ c with last_used := now, in_use := false, closed := true }),
              active_connections := fset s.active_connections c.host_id (l.erase cid) } := by
          unfold release_connection close_connection PoolState.is_connected
          rw [hc]
          dsimp only
          simp only [halive, Bool.true_eq_false, if_false]
          rw [hq]
          simp only [hroom, if_false]
          rw [fset_self]
          dsimp only
          simp only [halive, if_true]
          rw [fset_fset_self]
          rw [hl]
          dsimp only
          rw [hcont]
          simp only [if_true]
        rw [hR]
        exact PoolInv.release_close m s _ cid c
          { c with last_used := now, in_use := false, closed := true } l
          hInv hc hheld rfl hl rfl rfl rfl rfl rfl rfl rfl

/-- The invariant holds after any valid trace under the strict caller
discipline. -/
theorem PoolInv.run_ok (m : Nat) (ops : List Op) : ∀ s : PoolState,
    PoolInv m s → okRun opOkStrict s ops = true → PoolInv m (run s ops) := by
  induction ops with
  | nil =>
    intro s hInv _
    exact hInv
  | cons op rest ih =>
    intro s hInv hok
    unfold okRun at hok
    rw [Bool.and_eq_true] at hok
    unfold run
    simp only [List.foldl_cons]
    exact ih (stepOp s op) (PoolInv.step m s op hInv hok.1) hok.2

/-- C1 (corrected): for every sequence of `register_host`,
`get_connection` and `release_connection` operations in which each release
targets a currently checked-out connection — excluding idle-eviction
passes, which the counterexample shows can break the bound — every host
satisfies `outstanding(H) + |idle(H)| ≤ max_connections` in the resulting
state; since every prefix of such a trace is again such a trace, the bound
holds at every instant. -/
theorem C1_amended (m t i : Nat) (ops : List Op) (h : String)
    (hok : okRun opOkStrict (initState m t i) ops = true) :
    outstanding (run (initState m t i) ops) h +
      idleLen (run (initState m t i) ops) h ≤ m :=
  (PoolInv.run_ok m ops (initState m t i) (PoolInv.init m t i) hok).sum_le h

/-- Witness for C1 (amended) on a two-operation trace. -/
theorem C1_amended_witness :
    okRun opOkStrict (initState 1 60 300)
        [.register "h" demoInfo, .acquire "h" 0 envConnect] = true ∧
      outstanding (run (initState 1 60 300)
          [.register "h" demoInfo, .acquire "h" 0 envConnect]) "h" +
        idleLen (run (initState 1 60 300)
          [.register "h" demoInfo, .acquire "h" 0 envConnect]) "h" ≤ 1 :=
  ⟨by decide,
    C1_amended 1 60 300 [.register "h" demoInfo, .acquire "h" 0 envConnect] "h" (by decide)⟩

/-- C5 (corrected): for every sequence of registrations, acquires and
releases in which each release targets a currently checked-out connection
(so no wrapper is released twice — the counterexample shows a double
release breaks this), every live connection has at most one owner: no two
callers hold the same connection, no idle queue contains a connection
twice, a queued connection sits only in its own host's queue, and no
connection is simultaneously idle and checked out. -/
theorem C5_amended (m t i : Nat) (ops : List Op)
    (hok : okRun opOkStrict (initState m t i) ops = true) :
    (run (initState m t i) ops).held.Nodup ∧
      ∀ h q, (run (initState m t i) ops).pools h = some q → q.Nodup ∧
        ∀ cid ∈ q, cid ∉ (run (initState m t i) ops).held ∧
          hostOf (run (initState m t i) ops) cid = h := by
  have hInv := PoolInv.run_ok m ops (initState m t i) (PoolInv.init m t i) hok
  refine ⟨hInv.held_nodup, fun h q hq =>
    ⟨hInv.queue_nodup h q hq, fun cid hcid =>
      ⟨fun hmem => hInv.held_queue cid hmem h q hq hcid,
        (hInv.queue_conns h q hq cid hcid).2⟩⟩⟩

/-- Witness for C5 (amended) on an acquire–release round trip. -/
theorem C5_amended_witness :
    okRun opOkStrict (initState 2 60 300)
        [.register "h" demoInfo, .acquire "h" 0 envConnect,
         .release 0 1 (envAlive [0])] = true ∧
      ((run (initState 2 60 300)
          [.register "h" demoInfo, .acquire "h" 0 envConnect,
           .release 0 1 (envAlive [0])]).held.Nodup ∧
        ∀ h q, (run (initState 2 60 300)
            [.register "h" demoInfo, .acquire "h" 0 envConnect,
             .release 0 1 (envAlive [0])]).pools h = some q → q.Nodup ∧
          ∀ cid ∈ q, cid ∉ (run (initState 2 60 300)
              [.register "h" demoInfo, .acquire "h" 0 envConnect,
               .release 0 1 (envAlive [0])]).held ∧
            hostOf (run (initState 2 60 300)
              [.register "h" demoInfo, .acquire "h" 0 envConnect,
               .release 0 1 (envAlive [0])]) cid = h) :=
  ⟨by decide,
    C5_amended 2 60 300
      [.register "h" demoInfo, .acquire "h" 0 envConnect, .release 0 1 (envAlive [0])]
      (by decide)⟩
